import Mathlib

/-!
Verification of the taskboard core of `mcp-pantheon-suite`
(`src/servers/taskboard/handlers.js`, plus the refactored
`src/servers/taskboard/handlers/tasks.js` and the shared query helpers).

The handlers are shallowly embedded: the SQLite tables become lists of
records inside a `DB` structure, every handler becomes a pure function
`DB → ... → OpOut` returning the new database together with the
MCP-style result record, and the external oracles of the JavaScript code
(`uuid8()` for fresh ids, `now()` / `Date.now()` for wall-clock time, the
resolved agent name) become explicit parameters.  Timestamps are modelled
as natural numbers (seconds); ISO-8601 strings compare lexicographically
in the same order, so `ORDER BY changed_at DESC LIMIT 1` becomes "maximal
timestamp".  A SQL `INSERT` appends to the list; `UNIQUE`/`PRIMARY KEY`
violations (which make the surrounding transaction throw, roll back and
surface as an error result) are modelled by explicit id-freshness checks
that return the error without touching the state.  JSON-encoded columns
(`criteria`, review `categories`) are modelled by `StoredJson`, which
records the only outcomes the handlers distinguish: SQL `NULL` / empty
(falsy), a JSON parse failure (carrying the JS exception message), or a
successfully parsed array.
-/

/-- JavaScript `x || null` on an optional string: the empty string is falsy. -/
def truthyOpt (o : Option String) : Option String :=
  match o with
  | some s => if s = "" then none else some s
  | none => none

/-- `Array.prototype.join(sep)` of JavaScript. -/
def joinSep (sep : String) : List String → String
  | [] => ""
  | [x] => x
  | x :: xs => x ++ sep ++ joinSep sep xs

/-- The string `t` occurs inside `s` as a contiguous substring. -/
def strContains (s t : String) : Prop :=
  t.data <:+: s.data

instance (s t : String) : Decidable (strContains s t) := by
  unfold strContains
  infer_instance

-- ── Pipelines (handlers.js lines 123-163) ────────────────────────────

def FORGE_STATUSES : List String :=
  ["backlog", "specced", "designed", "ready", "in_progress",
   "in_review", "testing", "acceptance", "done"]

/-- `FORGE_TRANSITIONS[s]`: JavaScript object lookup, `undefined` = `none`. -/
def forgeTransitions : String → Option (List String)
  | "backlog" => some ["specced"]
  | "specced" => some ["designed"]
  | "designed" => some ["ready"]
  | "ready" => some ["in_progress"]
  | "in_progress" => some ["in_review"]
  | "in_review" => some ["testing", "in_progress"]
  | "testing" => some ["acceptance", "in_progress"]
  | "acceptance" => some ["done", "in_progress"]
  | "done" => some []
  | _ => none

def OPS_STATUSES : List String := ["todo", "in_progress", "blocked", "done"]

/-- `OPS_TRANSITIONS[s]`. -/
def opsTransitions : String → Option (List String)
  | "todo" => some ["in_progress"]
  | "in_progress" => some ["blocked", "done"]
  | "blocked" => some ["in_progress"]
  | "done" => some []
  | _ => none

def VALID_STATUSES : List String :=
  FORGE_STATUSES ++ ["todo", "blocked"]

/-- `project.startsWith("ops/")`, written on the character list so that it
evaluates by kernel reduction (the empty string is falsy in the guard
`project && project.startsWith("ops/")` and also fails this test, so one
test captures the JavaScript condition). -/
def isOpsProject (project : String) : Bool :=
  project.data.take 4 == "ops/".data

/-- `getTransitions(project)`: projects whose name starts with the reserved
`ops/` prefix use the lightweight table, everything else the full one. -/
def getTransitions (project : String) : String → Option (List String) :=
  if isOpsProject project then opsTransitions else forgeTransitions

/-- `getDefaultStatus(project)`. -/
def getDefaultStatus (project : String) : String :=
  if isOpsProject project then "todo" else "backlog"

/-- The status set of the pipeline selected by a project name. -/
def pipelineStatuses (project : String) : List String :=
  if isOpsProject project then OPS_STATUSES else FORGE_STATUSES

/-- The pipeline name used in the invalid-transition error message. -/
def pipelineName (project : String) : String :=
  if isOpsProject project then "ops" else "forge"

-- ── Data model (schema of handlers.js lines 9-96) ────────────────────

/-- A stored TEXT column holding JSON, as the handlers observe it:
`absent` is SQL `NULL` (or the falsy empty string), `malformed` is a
value on which `JSON.parse` throws (with the exception's message),
`nonArr` is valid JSON whose parse is not an array — carrying the numeric
value the handlers read from the parse's `.length` property (`0` when the
property is missing or zero, so `len > 0` is exactly the JavaScript
truthiness of `.length`; array methods such as `.filter`, `.join` and
`.find` throw a `TypeError` on such a value) — and `arr` is a
successfully parsed array. -/
inductive StoredJson (α : Type) where
  | absent : StoredJson α
  | malformed (msg : String) : StoredJson α
  | nonArr (len : Nat) : StoredJson α
  | arr (xs : List α) : StoredJson α
deriving Repr, DecidableEq

/-- One acceptance-criteria checklist item `{id, text, checked, checked_by}`
as written by `setCriteria`. -/
structure CriterionItem where
  cid : String
  ctext : String
  checked : Bool
  checked_by : Option String
deriving Repr, DecidableEq

/-- A row of the `tasks` table. -/
structure TaskRec where
  id : String
  project : String
  title : String
  description : String
  status : String
  assigned_to : Option String
  priority : Int
  created_by : String
  created_at : Nat
  updated_at : Nat
  parent_task_id : Option String
  branch : Option String
  pr_url : Option String
  pr_number : Option Int
  pr_merged : Int
  spec_file : Option String
  design_file : Option String
  criteria : StoredJson CriterionItem
  due_date : Option String
deriving Repr, DecidableEq

/-- A row of the `task_comments` table. -/
structure TaskComment where
  id : String
  task_id : String
  author : String
  content : String
  ctype : String
  verdict : Option String
  categories : StoredJson String
  created_at : Nat
deriving Repr, DecidableEq

/-- A row of the `task_deps` table (primary key: the ordered pair). -/
structure Dep where
  task_id : String
  depends_on_id : String
  created_by : String
deriving Repr, DecidableEq

/-- A row of the `task_history` table. -/
structure HistEntry where
  id : String
  task_id : String
  from_status : Option String
  to_status : String
  changed_by : String
  changed_at : Nat
  duration_seconds : Option Int
deriving Repr, DecidableEq

/-- The taskboard database (the four task-related tables). -/
structure DB where
  tasks : List TaskRec
  comments : List TaskComment
  deps : List Dep
  history : List HistEntry
deriving Repr, DecidableEq

def emptyDB : DB := ⟨[], [], [], []⟩

/-- An MCP tool result: the text content and the `isError` flag. -/
structure MCPResult where
  text : String
  isError : Bool
deriving Repr, DecidableEq

def okRes (t : String) : MCPResult := ⟨t, false⟩

def errRes (t : String) : MCPResult := ⟨t, true⟩

/-- What a handler returns: the database after the call and the result. -/
structure OpOut where
  db : DB
  res : MCPResult
deriving Repr, DecidableEq

/-- `SELECT * FROM tasks WHERE id = ?` (`.get`: the first matching row). -/
def findTask (db : DB) (tid : String) : Option TaskRec :=
  db.tasks.find? (fun t => t.id == tid)

/-- The id is already used as a `tasks` primary key. -/
def taskIdUsed (db : DB) (i : String) : Bool :=
  db.tasks.any (fun t => t.id == i)

def commentIdUsed (db : DB) (i : String) : Bool :=
  db.comments.any (fun c => c.id == i)

def histIdUsed (db : DB) (i : String) : Bool :=
  db.history.any (fun h => h.id == i)

def uniqueErr : MCPResult := errRes "Error: UNIQUE constraint failed"

-- ── createTask (handlers.js lines 167-211) ───────────────────────────

structure CreateParams where
  project : Option String
  title : String
  description : String
  priority : Int
  status : Option String
  assigned_to : Option String
  parent_task_id : Option String
  due_date : Option String
deriving Repr, DecidableEq

/-- Shared tail of `createTask` once the project is resolved: the
`!resolvedProject` guard, status defaulting, and the transactional insert
of the task row plus its initial history entry. -/
def createTaskInsert (db : DB) (agent : String) (id histId : String) (time : Nat)
    (p : CreateParams) (resolvedProject : Option String) : OpOut :=
  match truthyOpt resolvedProject with
  | none =>
    ⟨db, errRes "Error: 'project' is required when not creating a subtask."⟩
  | some proj =>
    let st := match truthyOpt p.status with
      | some s => s
      | none => getDefaultStatus proj
    if taskIdUsed db id || histIdUsed db histId then ⟨db, uniqueErr⟩
    else
      let task : TaskRec :=
        ⟨id, proj, p.title, p.description, st, truthyOpt p.assigned_to,
         p.priority, agent, time, time, truthyOpt p.parent_task_id,
         none, none, none, 0, none, none, StoredJson.absent, truthyOpt p.due_date⟩
      let hist : HistEntry := ⟨histId, id, none, st, agent, time, none⟩
      let note := match truthyOpt p.parent_task_id with
        | some pid => " (subtask of " ++ pid ++ ")"
        | none => ""
      ⟨{ db with tasks := db.tasks ++ [task], history := db.history ++ [hist] },
       okRes ("Task created: " ++ id ++ " — \"" ++ p.title ++ "\" [" ++ st ++
              "] in project " ++ proj ++ note)⟩

/-- `createTask(db, agentName, params)`.  `id` and `histId` are the two
`uuid8()` draws, `time` the `now()` reading. -/
def createTask (db : DB) (agent : String) (id histId : String) (time : Nat)
    (p : CreateParams) : OpOut :=
  match truthyOpt p.parent_task_id with
  | some pid =>
    match findTask db pid with
    | none => ⟨db, errRes ("Error: Parent task '" ++ pid ++ "' not found.")⟩
    | some parent =>
      if parent.parent_task_id.isSome then
        ⟨db, errRes "Error: Cannot nest subtasks more than one level deep."⟩
      else
        createTaskInsert db agent id histId time p (some parent.project)
  | none => createTaskInsert db agent id histId time p p.project

-- ── updateTask (handlers.js lines 408-521) ───────────────────────────

/-- The argument record of `update_task`.  An outer `none` is a JavaScript
`undefined` (field not supplied); for nullable columns the inner `Option`
distinguishes an explicit `null` from a value. -/
structure UpdateParams where
  task_id : String
  status : Option String
  assigned_to : Option (Option String)
  branch : Option (Option String)
  spec_file : Option (Option String)
  design_file : Option (Option String)
  title : Option String
  description : Option String
  priority : Option Int
  pr_url : Option (Option String)
  pr_number : Option (Option Int)
  pr_merged : Option Int
  parent_task_id : Option (Option String)
  due_date : Option (Option String)
  expected_status : Option String
deriving Repr, DecidableEq

/-- An `UpdateParams` with only `task_id` set (every field `undefined`). -/
def baseUpdate (tid : String) : UpdateParams :=
  ⟨tid, none, none, none, none, none, none, none, none, none, none, none,
   none, none, none⟩

/-- Number of direct children of `tid` whose status is not `done`
(the done-guard `COUNT(*)` query). -/
def nonDoneChildCount (db : DB) (tid : String) : Nat :=
  (db.tasks.filter (fun t => t.parent_task_id == some tid && t.status != "done")).length

/-- Number of direct children of `tid` (the parent-validation `COUNT(*)`). -/
def childCount (db : DB) (tid : String) : Nat :=
  (db.tasks.filter (fun t => t.parent_task_id == some tid)).length

/-- The keys of the `updates` object, in JavaScript insertion order,
`updated_at` excluded; `status'` is the status argument after the
same-status clearing step. -/
def changedFields (u : UpdateParams) (status' : Option String) : List String :=
  (if status'.isSome then ["status"] else []) ++
  (if u.assigned_to.isSome then ["assigned_to"] else []) ++
  (if u.branch.isSome then ["branch"] else []) ++
  (if u.spec_file.isSome then ["spec_file"] else []) ++
  (if u.design_file.isSome then ["design_file"] else []) ++
  (if u.title.isSome then ["title"] else []) ++
  (if u.description.isSome then ["description"] else []) ++
  (if u.priority.isSome then ["priority"] else []) ++
  (if u.pr_url.isSome then ["pr_url"] else []) ++
  (if u.pr_number.isSome then ["pr_number"] else []) ++
  (if u.pr_merged.isSome then ["pr_merged"] else []) ++
  (if u.parent_task_id.isSome then ["parent_task_id"] else []) ++
  (if u.due_date.isSome then ["due_date"] else [])

/-- Apply the `UPDATE tasks SET ...` assignments to one row. -/
def applyUpdates (u : UpdateParams) (status' : Option String) (time : Nat)
    (t : TaskRec) : TaskRec :=
  { t with
    status := status'.getD t.status
    assigned_to := u.assigned_to.getD t.assigned_to
    branch := u.branch.getD t.branch
    spec_file := u.spec_file.getD t.spec_file
    design_file := u.design_file.getD t.design_file
    title := u.title.getD t.title
    description := u.description.getD t.description
    priority := u.priority.getD t.priority
    pr_url := u.pr_url.getD t.pr_url
    pr_number := u.pr_number.getD t.pr_number
    pr_merged := u.pr_merged.getD t.pr_merged
    parent_task_id := u.parent_task_id.getD t.parent_task_id
    due_date := u.due_date.getD t.due_date
    updated_at := time }

/-- `changed_at` of the task's most recent history entry
(`ORDER BY changed_at DESC LIMIT 1`): the maximal recorded timestamp. -/
def lastChangedAt (db : DB) (tid : String) : Option Nat :=
  ((db.history.filter (fun h => h.task_id == tid)).map HistEntry.changed_at).max?

/-- The update transaction: the `UPDATE` statement, and on an actual status
transition the audit comment and the history row (with `duration_seconds`
computed from the most recent prior entry).  A primary-key collision
inside the transaction rolls the whole transaction back into an error. -/
def updateTaskTx (db : DB) (agent : String) (commentId histId : String) (time : Nat)
    (u : UpdateParams) (task : TaskRec) (status' : Option String) : OpOut :=
  let tasks' := db.tasks.map (fun t => if t.id == u.task_id then applyUpdates u status' time t else t)
  let doneMsg := okRes ("Task " ++ u.task_id ++ " updated: " ++
                        joinSep ", " (changedFields u status'))
  match status' with
  | some s =>
    if s ≠ "" ∧ s ≠ task.status then
      if commentIdUsed db commentId || histIdUsed db histId then ⟨db, uniqueErr⟩
      else
        let comment : TaskComment :=
          ⟨commentId, u.task_id, agent,
           "Status: " ++ task.status ++ " → " ++ s, "comment", none,
           StoredJson.absent, time⟩
        let dur : Option Int := match lastChangedAt db u.task_id with
          | some t0 => some ((time : Int) - (t0 : Int))
          | none => none
        let hist : HistEntry := ⟨histId, u.task_id, some task.status, s, agent, time, dur⟩
        ⟨{ db with tasks := tasks', comments := db.comments ++ [comment],
                   history := db.history ++ [hist] }, doneMsg⟩
    else ⟨{ db with tasks := tasks' }, doneMsg⟩
  | none => ⟨{ db with tasks := tasks' }, doneMsg⟩

/-- `updateTask` after the parent-field validation: the empty-update check
and the transaction. -/
def updateTaskApply (db : DB) (agent : String) (commentId histId : String) (time : Nat)
    (u : UpdateParams) (task : TaskRec) (status' : Option String) : OpOut :=
  if changedFields u status' = [] then ⟨db, okRes "No fields to update."⟩
  else updateTaskTx db agent commentId histId time u task status'

/-- `updateTask` from the parent-field validation on. -/
def updateTaskParent (db : DB) (agent : String) (commentId histId : String) (time : Nat)
    (u : UpdateParams) (task : TaskRec) (status' : Option String) : OpOut :=
  match u.parent_task_id with
  | some (some pid) =>
    if pid = u.task_id then
      ⟨db, errRes "Error: A task cannot be its own parent."⟩
    else
      match findTask db pid with
      | none => ⟨db, errRes ("Error: Parent task '" ++ pid ++ "' not found.")⟩
      | some parent =>
        if parent.parent_task_id.isSome then
          ⟨db, errRes "Error: Cannot nest subtasks more than one level deep."⟩
        else if childCount db u.task_id > 0 then
          ⟨db, errRes "Error: Cannot make a parent task into a subtask."⟩
        else updateTaskApply db agent commentId histId time u task status'
  | _ => updateTaskApply db agent commentId histId time u task status'

/-- `updateTask` from the done-guard on. -/
def updateTaskGuard (db : DB) (agent : String) (commentId histId : String) (time : Nat)
    (u : UpdateParams) (task : TaskRec) (status' : Option String) : OpOut :=
  if status' = some "done" ∧ nonDoneChildCount db u.task_id > 0 then
    ⟨db, errRes ("Error: Cannot mark task as done — " ++
                 toString (nonDoneChildCount db u.task_id) ++
                 " subtask(s) are not done yet.")⟩
  else updateTaskParent db agent commentId histId time u task status'

/-- `updateTask` from the transition validation on: `status'` is the status
argument after the same-status clearing. -/
def updateTaskValidate (db : DB) (agent : String) (commentId histId : String) (time : Nat)
    (u : UpdateParams) (task : TaskRec) (status' : Option String) : OpOut :=
  match status' with
  | some s =>
    if s ≠ "" ∧ s ≠ task.status then
      match getTransitions task.project task.status with
      | some allowed =>
        if s ∉ allowed then
          let hint := if allowed.length > 0 then
              "Allowed: " ++ task.status ++ " → " ++ joinSep " | " allowed
            else "No transitions from '" ++ task.status ++ "'"
          ⟨db, errRes ("Error: Invalid status transition '" ++ task.status ++
                       "' → '" ++ s ++ "' (" ++ pipelineName task.project ++
                       " pipeline). " ++ hint)⟩
        else updateTaskGuard db agent commentId histId time u task status'
      | none => updateTaskGuard db agent commentId histId time u task status'
    else updateTaskGuard db agent commentId histId time u task status'
  | none => updateTaskGuard db agent commentId histId time u task status'

/-- `updateTask(db, agentName, params)`: lookup, optimistic lock,
same-status clearing, then validation and the transaction.  `commentId`
and `histId` are the `uuid8()` draws of the transaction, `time` the
clock reading. -/
def updateTask (db : DB) (agent : String) (commentId histId : String) (time : Nat)
    (u : UpdateParams) : OpOut :=
  match findTask db u.task_id with
  | none => ⟨db, okRes ("Task '" ++ u.task_id ++ "' not found.")⟩
  | some task =>
    match u.expected_status with
    | some e =>
      if e ≠ "" ∧ task.status ≠ e then
        ⟨db, okRes ("No-op: task " ++ u.task_id ++ " is now '" ++ task.status ++
                    "' (expected '" ++ e ++ "'). Another agent already moved it.")⟩
      else
        let status' : Option String := match u.status with
          | some s => if s ≠ "" ∧ s = task.status then none else some s
          | none => none
        updateTaskValidate db agent commentId histId time u task status'
    | none =>
      let status' : Option String := match u.status with
        | some s => if s ≠ "" ∧ s = task.status then none else some s
        | none => none
      updateTaskValidate db agent commentId histId time u task status'

-- ── deleteTask (handlers.js lines 716-747) ───────────────────────────

/-- One iteration of the cascade loop: delete the comments, dependency
edges (either direction) and history rows of one subtask id. -/
def cascadeChild (acc : DB) (cid : String) : DB :=
  { acc with
    comments := acc.comments.filter (fun c => c.task_id != cid)
    deps := acc.deps.filter (fun d => !(d.task_id == cid || d.depends_on_id == cid))
    history := acc.history.filter (fun h => h.task_id != cid) }

/-- `deleteTask(db, agentName, {task_id, confirm})`. -/
def deleteTask (db : DB) (tid : String) (confirm : Bool) : OpOut :=
  if !confirm then
    ⟨db, okRes "Deletion not confirmed. Set confirm: true to proceed."⟩
  else
    match findTask db tid with
    | none => ⟨db, errRes ("Task '" ++ tid ++ "' not found.")⟩
    | some task =>
      let subtasks := db.tasks.filter (fun t => t.parent_task_id == some tid)
      let db1 := subtasks.foldl (fun acc sub => cascadeChild acc sub.id) db
      let db2 := { db1 with tasks := db1.tasks.filter (fun t => t.parent_task_id != some tid) }
      let db3 : DB :=
        { tasks := db2.tasks.filter (fun t => t.id != tid)
          comments := db2.comments.filter (fun c => c.task_id != tid)
          deps := db2.deps.filter (fun d => !(d.task_id == tid || d.depends_on_id == tid))
          history := db2.history.filter (fun h => h.task_id != tid) }
      ⟨db3, okRes ("Deleted task " ++ tid ++ ": \"" ++ task.title ++ "\" (project: " ++
                   task.project ++ ")" ++
                   (if subtasks.length > 0 then
                     " and " ++ toString subtasks.length ++ " subtask(s)"
                   else ""))⟩

-- ── Dependencies (handlers.js lines 679-714, 749-762) ────────────────

/-- `SELECT task_id FROM task_deps WHERE depends_on_id = ?`: the tasks that
directly depend on `cur`. -/
def depsDependents (deps : List Dep) (cur : String) : List String :=
  (deps.filter (fun d => d.depends_on_id == cur)).map Dep.task_id

/-- All node names occurring in the edge list (for the termination measure
of the breadth-first search). -/
def depsNodes (deps : List Dep) : Finset String :=
  (deps.map Dep.task_id).toFinset ∪ (deps.map Dep.depends_on_id).toFinset

theorem depsDependents_eq_nil {deps : List Dep} {cur : String}
    (h : cur ∉ depsNodes deps) : depsDependents deps cur = [] := by
  simp only [depsNodes, Finset.mem_union, List.mem_toFinset, not_or] at h
  simp only [depsDependents, List.map_eq_nil_iff, List.filter_eq_nil_iff]
  intro d hd hbe
  exact h.2 (List.mem_map.mpr ⟨d, hd, by simpa using hbe⟩)

/-- The breadth-first search of `addDependency`: starting from the queue,
walk the "is depended on by" relation; `true` when `target` is reached. -/
def bfsFind (deps : List Dep) (target : String) (visited queue : List String) : Bool :=
  match queue with
  | [] => false
  | cur :: rest =>
    if cur = target then true
    else if cur ∈ visited then bfsFind deps target visited rest
    else bfsFind deps target (cur :: visited) (rest ++ depsDependents deps cur)
termination_by ((depsNodes deps \ visited.toFinset).card, queue.length)
decreasing_by
  · exact Prod.Lex.right _ (Nat.lt_succ_self _)
  · rename_i hcur hvis
    by_cases hn : cur ∈ depsNodes deps
    · apply Prod.Lex.left
      have hins : (cur :: visited).toFinset = insert cur visited.toFinset := by
        simp [List.toFinset_cons]
      rw [hins, Finset.sdiff_insert]
      apply Finset.card_erase_lt_of_mem
      simp only [Finset.mem_sdiff, List.mem_toFinset]
      exact ⟨hn, hvis⟩
    · have hd : depsDependents deps cur = [] := depsDependents_eq_nil hn
      have hs : (cur :: visited).toFinset = insert cur visited.toFinset := by
        simp [List.toFinset_cons]
      have heq : depsNodes deps \ (cur :: visited).toFinset =
          depsNodes deps \ visited.toFinset := by
        rw [hs, Finset.sdiff_insert, Finset.erase_eq_of_not_mem]
        simp only [Finset.mem_sdiff]
        exact fun hc => hn hc.1
      rw [heq, hd]
      exact Prod.Lex.right _ (by simp [Nat.lt_succ_self])

/-- `addDependency(db, agentName, {task_id, depends_on_id})`: self-reference
check, existence checks, BFS cycle detection, then `INSERT OR IGNORE`. -/
def addDependency (db : DB) (agent : String) (task_id depends_on_id : String) : OpOut :=
  if task_id = depends_on_id then
    ⟨db, errRes "Error: A task cannot depend on itself."⟩
  else
    match findTask db task_id, findTask db depends_on_id with
    | none, _ => ⟨db, errRes ("Task '" ++ task_id ++ "' not found.")⟩
    | some _, none => ⟨db, errRes ("Task '" ++ depends_on_id ++ "' not found.")⟩
    | some t1, some t2 =>
      if bfsFind db.deps depends_on_id [] [task_id] then
        ⟨db, errRes "Error: Adding this dependency would create a circular chain."⟩
      else
        let dup := db.deps.any (fun d => d.task_id == task_id && d.depends_on_id == depends_on_id)
        let deps' := if dup then db.deps else db.deps ++ [⟨task_id, depends_on_id, agent⟩]
        ⟨{ db with deps := deps' },
         okRes ("Dependency added: \"" ++ t1.title ++ "\" is now blocked by \"" ++
                t2.title ++ "\"")⟩

/-- `removeDependency`: delete the exact ordered pair; zero rows deleted is
reported as an error. -/
def removeDependency (db : DB) (task_id depends_on_id : String) : OpOut :=
  let deps' := db.deps.filter (fun d => !(d.task_id == task_id && d.depends_on_id == depends_on_id))
  if deps'.length = db.deps.length then ⟨db, errRes "Dependency not found."⟩
  else
    ⟨{ db with deps := deps' },
     okRes ("Dependency removed: " ++ task_id ++ " no longer blocked by " ++ depends_on_id)⟩

-- ── Comments, reviews, criteria (handlers.js lines 523-615) ──────────

/-- `addComment`: a missing task is a non-error result here. -/
def addComment (db : DB) (agent : String) (cid : String) (time : Nat)
    (tid content : String) : OpOut :=
  match findTask db tid with
  | none => ⟨db, okRes ("Task '" ++ tid ++ "' not found.")⟩
  | some _ =>
    if commentIdUsed db cid then ⟨db, uniqueErr⟩
    else
      ⟨{ db with comments := db.comments ++
          [⟨cid, tid, agent, content, "comment", none, StoredJson.absent, time⟩] },
       okRes ("Comment added to task " ++ tid ++ " (id: " ++ cid ++ ")")⟩

/-- ASCII `toUpperCase` (verdicts are the ASCII words approve/reject). -/
def upperAscii (s : String) : String :=
  ⟨s.data.map (fun c => if 'a' ≤ c ∧ c ≤ 'z' then Char.ofNat (c.toNat - 32) else c)⟩

/-- `submitReview`: inserts a comment row with type `review`, the verdict
and the JSON-encoded category list. -/
def submitReview (db : DB) (agent : String) (rid : String) (time : Nat)
    (tid verdict content : String) (categories : List String) : OpOut :=
  match findTask db tid with
  | none => ⟨db, errRes ("Task '" ++ tid ++ "' not found.")⟩
  | some _ =>
    if commentIdUsed db rid then ⟨db, uniqueErr⟩
    else
      ⟨{ db with comments := db.comments ++
          [⟨rid, tid, agent, content, "review", some verdict, StoredJson.arr categories, time⟩] },
       okRes ("Review submitted for " ++ tid ++ ": " ++ upperAscii verdict ++
              " (id: " ++ rid ++ ")")⟩

/-- `setCriteria`: overwrite the criteria column with fresh unchecked items
`c1 .. cn`. -/
def setCriteria (db : DB) (time : Nat) (tid : String) (criteria : List String) : OpOut :=
  match findTask db tid with
  | none => ⟨db, errRes ("Task '" ++ tid ++ "' not found.")⟩
  | some _ =>
    let items : List CriterionItem :=
      criteria.enum.map (fun p => ⟨"c" ++ toString (p.1 + 1), p.2, false, none⟩)
    let tasks' := db.tasks.map (fun t =>
      if t.id == tid then { t with criteria := StoredJson.arr items, updated_at := time } else t)
    ⟨{ db with tasks := tasks' },
     okRes ("Set " ++ toString criteria.length ++ " acceptance criteria on task " ++ tid)⟩

/-- Mutate the first checklist item with the given id (`items.find` returns
a reference, the handler mutates that one element). -/
def updateFirstCriterion (critId : String) (f : CriterionItem → CriterionItem) :
    List CriterionItem → List CriterionItem
  | [] => []
  | c :: cs =>
    if c.cid == critId then f c :: cs else c :: updateFirstCriterion critId f cs

/-- `checkCriterion`: parse the stored checklist (a parse failure degrades
to an empty list via the inner `try/catch`; a parse to a non-array
`TypeError`s unguarded on `items.find` into the outer catch), flip the
item, write it back. -/
def checkCriterion (db : DB) (agent : String) (time : Nat)
    (tid critId : String) (checked : Bool) : OpOut :=
  match findTask db tid with
  | none => ⟨db, errRes ("Task '" ++ tid ++ "' not found.")⟩
  | some task =>
    match task.criteria with
    | StoredJson.nonArr _ => ⟨db, errRes "Error: items.find is not a function"⟩
    | crit =>
      let items := match crit with
        | StoredJson.arr xs => xs
        | _ => []
      match items.find? (fun c => c.cid == critId) with
      | none =>
        let ids := joinSep ", " (items.map CriterionItem.cid)
        ⟨db, errRes ("Criterion '" ++ critId ++ "' not found. Available: " ++
                     (if ids = "" then "none" else ids))⟩
      | some _ =>
        let items' := updateFirstCriterion critId
          (fun c => { c with checked := checked,
                             checked_by := if checked then some agent else none }) items
        let tasks' := db.tasks.map (fun t =>
          if t.id == tid then { t with criteria := StoredJson.arr items', updated_at := time }
          else t)
        let done := (items'.filter (fun c => c.checked)).length
        ⟨{ db with tasks := tasks' },
         okRes ("Criterion " ++ critId ++ " " ++ (if checked then "checked" else "unchecked") ++
                " on task " ++ tid ++ " (" ++ toString done ++ "/" ++
                toString items'.length ++ " done)")⟩

-- ── Reachable states ─────────────────────────────────────────────────

/-- The states reachable from the empty store by any sequence of mutating
taskboard operations, with arbitrary arguments and arbitrary oracle values
(generated ids, clock readings, agent names).  Read-only handlers do not
change the store and need no constructor. -/
inductive Reachable : DB → Prop
  | empty : Reachable emptyDB
  | create (db : DB) (agent id histId : String) (time : Nat) (p : CreateParams) :
      Reachable db → Reachable (createTask db agent id histId time p).db
  | update (db : DB) (agent commentId histId : String) (time : Nat) (u : UpdateParams) :
      Reachable db → Reachable (updateTask db agent commentId histId time u).db
  | delete (db : DB) (tid : String) (confirm : Bool) :
      Reachable db → Reachable (deleteTask db tid confirm).db
  | addDep (db : DB) (agent a b : String) :
      Reachable db → Reachable (addDependency db agent a b).db
  | rmDep (db : DB) (a b : String) :
      Reachable db → Reachable (removeDependency db a b).db
  | comment (db : DB) (agent cid : String) (time : Nat) (tid content : String) :
      Reachable db → Reachable (addComment db agent cid time tid content).db
  | review (db : DB) (agent rid : String) (time : Nat) (tid verdict content : String)
      (categories : List String) :
      Reachable db → Reachable (submitReview db agent rid time tid verdict content categories).db
  | setCrit (db : DB) (time : Nat) (tid : String) (criteria : List String) :
      Reachable db → Reachable (setCriteria db time tid criteria).db
  | checkCrit (db : DB) (agent : String) (time : Nat) (tid critId : String) (checked : Bool) :
      Reachable db → Reachable (checkCriterion db agent time tid critId checked).db

-- ── Substring helpers ────────────────────────────────────────────────

theorem strContains_self (s : String) : strContains s s :=
  List.infix_rfl

theorem strContains_append_left {s t : String} (u : String)
    (h : strContains s t) : strContains (s ++ u) t := by
  obtain ⟨l, r, hl⟩ := h
  exact ⟨l, r ++ u.data, by rw [String.data_append, ← hl]; simp⟩

theorem strContains_append_right {s t : String} (u : String)
    (h : strContains s t) : strContains (u ++ s) t := by
  obtain ⟨l, r, hl⟩ := h
  exact ⟨u.data ++ l, r, by rw [String.data_append, ← hl]; simp⟩

theorem strContains_piece (a b c : String) : strContains (a ++ b ++ c) b :=
  strContains_append_left c (strContains_append_right a (strContains_self b))

-- ── Shared lemmas about updateTask ───────────────────────────────────

theorem applyUpdates_id (u : UpdateParams) (s : Option String) (time : Nat)
    (t : TaskRec) : (applyUpdates u s time t).id = t.id := rfl

/-- `find?` over a row-wise `UPDATE ... WHERE id = ?` returns the updated
row, provided the update keeps the id. -/
theorem find_map_ite (l : List TaskRec) (tid : String) (f : TaskRec → TaskRec)
    (hid : ∀ t, (f t).id = t.id) :
    (l.map (fun t => if t.id == tid then f t else t)).find? (fun t => t.id == tid) =
      (l.find? (fun t => t.id == tid)).map f := by
  induction l with
  | nil => rfl
  | cons c cs ih =>
    simp only [List.map_cons]
    by_cases hc : c.id = tid
    · rw [List.find?_cons_of_pos _ (by simp [hc, hid]),
          List.find?_cons_of_pos (l := cs) (by simp [hc])]
      simp [hc]
    · rw [List.find?_cons_of_neg _ (by simp [hc, hid]),
          List.find?_cons_of_neg (l := cs) (by simp [hc])]
      exact ih

theorem changedFields_status_ne_nil (u : UpdateParams) (s : String) :
    changedFields u (some s) ≠ [] := by
  simp only [changedFields, Option.isSome_some, if_true]
  intro h
  simpa using congrArg List.length h

-- ── C5: optimistic concurrency check ─────────────────────────────────

/-- C5: an `updateTask` call carrying an `expected_status` (a nonempty
string — every status is) that differs from the task's current status
returns a non-error no-op result whose message reports the actual current
status, and the whole store (the task's record, history and comments
included) is left exactly unchanged. -/
theorem C5_stale_expected_status_noop (db : DB) (agent commentId histId : String)
    (time : Nat) (u : UpdateParams) (task : TaskRec)
    (hfind : findTask db u.task_id = some task)
    (e : String) (he : u.expected_status = some e) (hne : e ≠ "")
    (hdiff : task.status ≠ e) :
    (updateTask db agent commentId histId time u).db = db ∧
    (updateTask db agent commentId histId time u).res.isError = false ∧
    strContains (updateTask db agent commentId histId time u).res.text task.status := by
  simp only [updateTask, hfind, he]
  rw [if_pos (⟨hne, hdiff⟩ : e ≠ "" ∧ task.status ≠ e)]
  refine ⟨rfl, rfl, ?_⟩
  exact strContains_append_left _ (strContains_append_left _ (strContains_append_left _
    (strContains_append_right _ (strContains_self _))))

def w5db : DB :=
  (createTask emptyDB "alice" "t1" "h1" 0 ⟨some "proj", "T", "", 5, none, none, none, none⟩).db

def w5task : TaskRec :=
  ⟨"t1", "proj", "T", "", "backlog", none, 5, "alice", 0, 0, none, none, none, none, 0,
   none, none, StoredJson.absent, none⟩

def w5u : UpdateParams :=
  { baseUpdate "t1" with status := some "specced", expected_status := some "in_progress" }

/-- Witness for C5 at a concrete store: a stale `expected_status` leaves
everything unchanged and reports the actual status. -/
theorem C5_stale_expected_status_noop_witness :
    (updateTask w5db "bob" "c1" "h2" 7 w5u).db = w5db ∧
    (updateTask w5db "bob" "c1" "h2" 7 w5u).res.isError = false ∧
    strContains (updateTask w5db "bob" "c1" "h2" 7 w5u).res.text w5task.status :=
  C5_stale_expected_status_noop w5db "bob" "c1" "h2" 7 w5u w5task (by decide)
    "in_progress" rfl (by decide) (by decide)

/-- The successful status-change path of `updateTask`, characterized in one
equation: with an existing task, a passing (or absent) optimistic lock, a
truthy status different from the current one, a transition allowed by the
pipeline table, a passing done-guard, no parent change and fresh ids, the
call updates the row and appends exactly the audit comment and the history
row of the transaction. -/
theorem updateTask_status_success (db : DB) (agent commentId histId : String)
    (time : Nat) (u : UpdateParams) (task : TaskRec) (s : String) (allowed : List String)
    (hfind : findTask db u.task_id = some task)
    (hexp : u.expected_status = none ∨ u.expected_status = some task.status)
    (hs : u.status = some s) (hne : s ≠ "") (hneq : ¬ s = task.status)
    (htr : getTransitions task.project task.status = some allowed) (hmem : s ∈ allowed)
    (hguard : ¬ (s = "done" ∧ 0 < nonDoneChildCount db u.task_id))
    (hpar : u.parent_task_id = none)
    (hcid : commentIdUsed db commentId = false) (hhid : histIdUsed db histId = false) :
    updateTask db agent commentId histId time u =
      ⟨{ db with
          tasks := db.tasks.map
            (fun t => if t.id == u.task_id then applyUpdates u (some s) time t else t)
          comments := db.comments ++
            [⟨commentId, u.task_id, agent, "Status: " ++ task.status ++ " → " ++ s,
              "comment", none, StoredJson.absent, time⟩]
          history := db.history ++
            [⟨histId, u.task_id, some task.status, s, agent, time,
              match lastChangedAt db u.task_id with
              | some t0 => some ((time : Int) - (t0 : Int))
              | none => none⟩] },
        okRes ("Task " ++ u.task_id ++ " updated: " ++
               joinSep ", " (changedFields u (some s)))⟩ := by
  have hguard' : ¬ ((some s = some "done") ∧ 0 < nonDoneChildCount db u.task_id) := by
    simpa using hguard
  rcases hexp with hexp | hexp <;>
    simp only [updateTask, hfind, hexp, hs, ne_eq, not_true_eq_false, and_false,
      if_false, updateTaskValidate, htr, updateTaskGuard, updateTaskParent, hpar,
      updateTaskApply, updateTaskTx, hne, hneq, not_false_iff, and_true, and_self,
      if_true, hmem, not_true_eq_false, hguard', changedFields_status_ne_nil,
      hcid, hhid, Bool.or_self, Bool.false_eq_true]

-- ── C4: the done-guard ───────────────────────────────────────────────

/-- C4: transitioning a not-yet-done task to `done` is rejected with a
typed error (whatever the pipeline says) while some direct child is not
`done`, leaving the store unchanged; once every direct child is `done`,
the same pipeline-legal transition succeeds and the task's status becomes
`done`.  (The optimistic lock is assumed absent or matching — a stale lock
is the separate no-op behaviour of C5.)  -/
theorem C4_done_guard :
    (∀ (db : DB) (agent commentId histId : String) (time : Nat) (u : UpdateParams)
      (task : TaskRec),
      findTask db u.task_id = some task →
      (u.expected_status = none ∨ u.expected_status = some task.status) →
      u.status = some "done" → task.status ≠ "done" →
      0 < nonDoneChildCount db u.task_id →
      (updateTask db agent commentId histId time u).res.isError = true ∧
      (updateTask db agent commentId histId time u).db = db) ∧
    (∀ (db : DB) (agent commentId histId : String) (time : Nat) (u : UpdateParams)
      (task : TaskRec) (allowed : List String),
      findTask db u.task_id = some task →
      (u.expected_status = none ∨ u.expected_status = some task.status) →
      u.status = some "done" → task.status ≠ "done" →
      u.parent_task_id = none →
      getTransitions task.project task.status = some allowed → "done" ∈ allowed →
      nonDoneChildCount db u.task_id = 0 →
      commentIdUsed db commentId = false → histIdUsed db histId = false →
      (updateTask db agent commentId histId time u).res.isError = false ∧
      (findTask (updateTask db agent commentId histId time u).db u.task_id).map
        TaskRec.status = some "done") := by
  constructor
  · intro db agent commentId histId time u task hfind hexp hs hnd hcnt
    have hnd' : ¬ ("done" = task.status) := fun h => hnd h.symm
    have key : (updateTaskGuard db agent commentId histId time u task
          (some "done")).res.isError = true ∧
        (updateTaskGuard db agent commentId histId time u task (some "done")).db = db := by
      unfold updateTaskGuard
      rw [if_pos ⟨rfl, hcnt⟩]
      exact ⟨rfl, rfl⟩
    have keyV : (updateTaskValidate db agent commentId histId time u task
          (some "done")).res.isError = true ∧
        (updateTaskValidate db agent commentId histId time u task (some "done")).db = db := by
      rcases htr : getTransitions task.project task.status with _ | allowed
      · simpa [updateTaskValidate, htr, hnd'] using key
      · by_cases hmem : "done" ∈ allowed
        · simpa [updateTaskValidate, htr, hnd', hmem] using key
        · simp [updateTaskValidate, htr, hnd', hmem, errRes]
    rcases hexp with hexp | hexp
    · simpa [updateTask, hfind, hexp, hs, hnd'] using keyV
    · simpa [updateTask, hfind, hexp, hs, hnd'] using keyV
  · intro db agent commentId histId time u task allowed hfind hexp hs hnd hpar htr hmem
      hcnt hcid hhid
    have hneq : ¬ ("done" = task.status) := fun h => hnd h.symm
    have h := updateTask_status_success db agent commentId histId time u task "done"
      allowed hfind hexp hs (by decide) hneq htr hmem
      (by rw [hcnt]; rintro ⟨_, h0⟩; exact absurd h0 (by decide)) hpar hcid hhid
    rw [h]
    refine ⟨rfl, ?_⟩
    show ((db.tasks.map _).find? _).map TaskRec.status = some "done"
    rw [find_map_ite db.tasks u.task_id _ (applyUpdates_id u (some "done") time)]
    have : db.tasks.find? (fun t => t.id == u.task_id) = some task := hfind
    rw [this]
    simp [applyUpdates]

def w4parent : TaskRec :=
  ⟨"p1", "proj", "P", "", "acceptance", none, 5, "a", 0, 0, none, none, none, none, 0,
   none, none, StoredJson.absent, none⟩

def w4childTodo : TaskRec :=
  ⟨"c1", "proj", "C", "", "in_progress", none, 5, "a", 0, 0, some "p1", none, none, none, 0,
   none, none, StoredJson.absent, none⟩

def w4childDone : TaskRec :=
  ⟨"c1", "proj", "C", "", "done", none, 5, "a", 0, 0, some "p1", none, none, none, 0,
   none, none, StoredJson.absent, none⟩

def w4dbBlocked : DB := ⟨[w4parent, w4childTodo], [], [], []⟩

def w4dbReady : DB := ⟨[w4parent, w4childDone], [], [], []⟩

def w4u : UpdateParams := { baseUpdate "p1" with status := some "done" }

/-- Witness for C4: with an incomplete child the `done` transition errors
and changes nothing; with all children done, the same call succeeds. -/
theorem C4_done_guard_witness :
    ((updateTask w4dbBlocked "a" "cc" "hh" 1 w4u).res.isError = true ∧
     (updateTask w4dbBlocked "a" "cc" "hh" 1 w4u).db = w4dbBlocked) ∧
    ((updateTask w4dbReady "a" "cc" "hh" 1 w4u).res.isError = false ∧
     (findTask (updateTask w4dbReady "a" "cc" "hh" 1 w4u).db "p1").map TaskRec.status =
       some "done") :=
  ⟨C4_done_guard.1 w4dbBlocked "a" "cc" "hh" 1 w4u w4parent (by decide) (Or.inl rfl)
     rfl (by decide) (by decide),
   C4_done_guard.2 w4dbReady "a" "cc" "hh" 1 w4u w4parent ["done", "in_progress"]
     (by decide) (Or.inl rfl) rfl (by decide) rfl (by decide) (by decide) (by decide)
     (by decide) (by decide)⟩

-- ── C8: history rows ─────────────────────────────────────────────────

/-- C8: a successful status change (existing task, passing lock, truthy
target different from the current status, pipeline-legal, passing
done-guard, no parent change, fresh ids) appends in the same step exactly
one history row — `from_status` the old status, `to_status` the new one,
`duration_seconds` the elapsed time since the task's most recent prior
history entry (`none` when there is none) — together with the field
update; and a successful `createTask` appends the task row together with
exactly one initial history row with `from_status = none` and no
duration. -/
theorem C8_history_rows :
    (∀ (db : DB) (agent commentId histId : String) (time : Nat) (u : UpdateParams)
      (task : TaskRec) (s : String) (allowed : List String),
      findTask db u.task_id = some task →
      (u.expected_status = none ∨ u.expected_status = some task.status) →
      u.status = some s → s ≠ "" → ¬ s = task.status →
      getTransitions task.project task.status = some allowed → s ∈ allowed →
      ¬ (s = "done" ∧ 0 < nonDoneChildCount db u.task_id) →
      u.parent_task_id = none →
      commentIdUsed db commentId = false → histIdUsed db histId = false →
      (updateTask db agent commentId histId time u).db.history = db.history ++
        [⟨histId, u.task_id, some task.status, s, agent, time,
          match lastChangedAt db u.task_id with
          | some t0 => some ((time : Int) - (t0 : Int))
          | none => none⟩] ∧
      (findTask (updateTask db agent commentId histId time u).db u.task_id).map
        TaskRec.status = some s ∧
      (updateTask db agent commentId histId time u).res.isError = false) ∧
    (∀ (db : DB) (agent id histId : String) (time : Nat) (p : CreateParams),
      (createTask db agent id histId time p).res.isError = false →
      ∃ t : TaskRec,
        (createTask db agent id histId time p).db.tasks = db.tasks ++ [t] ∧
        (createTask db agent id histId time p).db.history =
          db.history ++ [⟨histId, id, none, t.status, agent, time, none⟩] ∧
        t.id = id) := by
  constructor
  · intro db agent commentId histId time u task s allowed hfind hexp hs hne hneq htr
      hmem hguard hpar hcid hhid
    rw [updateTask_status_success db agent commentId histId time u task s allowed
      hfind hexp hs hne hneq htr hmem hguard hpar hcid hhid]
    refine ⟨rfl, ?_, rfl⟩
    show ((db.tasks.map _).find? _).map TaskRec.status = some s
    rw [find_map_ite db.tasks u.task_id _ (applyUpdates_id u (some s) time)]
    have : db.tasks.find? (fun t => t.id == u.task_id) = some task := hfind
    rw [this]
    simp [applyUpdates]
  · intro db agent id histId time p hok
    have main : ∀ rp : Option String,
        (createTaskInsert db agent id histId time p rp).res.isError = false →
        ∃ t : TaskRec,
          (createTaskInsert db agent id histId time p rp).db.tasks = db.tasks ++ [t] ∧
          (createTaskInsert db agent id histId time p rp).db.history =
            db.history ++ [⟨histId, id, none, t.status, agent, time, none⟩] ∧
          t.id = id := by
      intro rp hok2
      cases htp : truthyOpt rp with
      | none => simp [createTaskInsert, htp, errRes] at hok2
      | some proj =>
        by_cases hids : (taskIdUsed db id || histIdUsed db histId) = true
        · simp [createTaskInsert, htp, hids, uniqueErr, errRes] at hok2
        · refine ⟨⟨id, proj, p.title, p.description,
            (match truthyOpt p.status with
              | some s => s
              | none => getDefaultStatus proj), truthyOpt p.assigned_to,
            p.priority, agent, time, time, truthyOpt p.parent_task_id,
            none, none, none, 0, none, none, StoredJson.absent, truthyOpt p.due_date⟩,
            ?_, ?_, rfl⟩ <;>
            simp only [createTaskInsert, htp] <;>
            rw [if_neg (by simpa [not_or] using hids)]
    cases hpt : truthyOpt p.parent_task_id with
    | none =>
      simp only [createTask, hpt] at hok ⊢
      exact main p.project hok
    | some pid =>
      simp only [createTask, hpt] at hok ⊢
      cases hf : findTask db pid with
      | none => simp [hf, errRes] at hok
      | some parent =>
        simp only [hf] at hok ⊢
        by_cases hpp : parent.parent_task_id.isSome
        · simp [hpp, errRes] at hok
        · simp only [hpp, Bool.false_eq_true, if_false] at hok ⊢
          exact main (some parent.project) hok

def w8task : TaskRec :=
  ⟨"t1", "proj", "T", "", "backlog", none, 5, "a", 0, 0, none, none, none, none, 0,
   none, none, StoredJson.absent, none⟩

def w8db : DB := ⟨[w8task], [], [], [⟨"h1", "t1", none, "backlog", "a", 0, none⟩]⟩

def w8u : UpdateParams := { baseUpdate "t1" with status := some "specced" }

def w8create : CreateParams := ⟨some "proj", "N", "", 5, none, none, none, none⟩

/-- Witness for C8: a concrete status change appends one history row with
`from = backlog`, `to = specced` and duration 10 − 0 = 10; and a concrete
creation appends the task row with its initial `from = none` history row. -/
theorem C8_history_rows_witness :
    ((updateTask w8db "b" "c9" "h2" 10 w8u).db.history = w8db.history ++
       [⟨"h2", "t1", some "backlog", "specced", "b", 10, some 10⟩] ∧
     (findTask (updateTask w8db "b" "c9" "h2" 10 w8u).db "t1").map TaskRec.status =
       some "specced" ∧
     (updateTask w8db "b" "c9" "h2" 10 w8u).res.isError = false) ∧
    (∃ t : TaskRec,
      (createTask emptyDB "a" "n1" "nh" 3 w8create).db.tasks = emptyDB.tasks ++ [t] ∧
      (createTask emptyDB "a" "n1" "nh" 3 w8create).db.history =
        emptyDB.history ++ [⟨"nh", "n1", none, t.status, "a", 3, none⟩] ∧
      t.id = "n1") :=
  ⟨C8_history_rows.1 w8db "b" "c9" "h2" 10 w8u w8task "specced" ["specced"]
     (by decide) (Or.inl rfl) rfl (by decide) (by decide) (by decide) (by decide)
     (by decide) (by decide) (by decide) (by decide),
   C8_history_rows.2 emptyDB "a" "n1" "nh" 3 w8create (by decide)⟩

-- ── C7: delete cascade ───────────────────────────────────────────────

/-- The ids of the direct children of `tid` (the cascade set of a
confirmed delete). -/
def childIdsOf (db : DB) (tid : String) : List String :=
  (db.tasks.filter (fun t => t.parent_task_id == some tid)).map TaskRec.id

theorem cascadeFold_tasks (subs : List TaskRec) (acc : DB) :
    (subs.foldl (fun a s => cascadeChild a s.id) acc).tasks = acc.tasks := by
  induction subs generalizing acc with
  | nil => rfl
  | cons s ss ih => simpa [cascadeChild] using ih (cascadeChild acc s.id)

theorem cascadeFold_comments_mem (subs : List TaskRec) (acc : DB) (c : TaskComment) :
    c ∈ (subs.foldl (fun a s => cascadeChild a s.id) acc).comments ↔
      c ∈ acc.comments ∧ ∀ s ∈ subs, c.task_id ≠ s.id := by
  induction subs generalizing acc with
  | nil => simp
  | cons s ss ih =>
    rw [List.foldl_cons, ih]
    simp only [cascadeChild, List.mem_filter, bne_iff_ne, ne_eq, List.mem_cons]
    constructor
    · rintro ⟨⟨hm, hne⟩, hall⟩
      exact ⟨hm, fun x hx => by rcases hx with rfl | hx; exact hne; exact hall x hx⟩
    · rintro ⟨hm, hall⟩
      exact ⟨⟨hm, hall s (Or.inl rfl)⟩, fun x hx => hall x (Or.inr hx)⟩

theorem cascadeFold_history_mem (subs : List TaskRec) (acc : DB) (h : HistEntry) :
    h ∈ (subs.foldl (fun a s => cascadeChild a s.id) acc).history ↔
      h ∈ acc.history ∧ ∀ s ∈ subs, h.task_id ≠ s.id := by
  induction subs generalizing acc with
  | nil => simp
  | cons s ss ih =>
    rw [List.foldl_cons, ih]
    simp only [cascadeChild, List.mem_filter, bne_iff_ne, ne_eq, List.mem_cons]
    constructor
    · rintro ⟨⟨hm, hne⟩, hall⟩
      exact ⟨hm, fun x hx => by rcases hx with rfl | hx; exact hne; exact hall x hx⟩
    · rintro ⟨hm, hall⟩
      exact ⟨⟨hm, hall s (Or.inl rfl)⟩, fun x hx => hall x (Or.inr hx)⟩

theorem cascadeFold_deps_mem (subs : List TaskRec) (acc : DB) (d : Dep) :
    d ∈ (subs.foldl (fun a s => cascadeChild a s.id) acc).deps ↔
      d ∈ acc.deps ∧ ∀ s ∈ subs, d.task_id ≠ s.id ∧ d.depends_on_id ≠ s.id := by
  induction subs generalizing acc with
  | nil => simp
  | cons s ss ih =>
    rw [List.foldl_cons, ih]
    simp only [cascadeChild, List.mem_filter, Bool.not_eq_true', Bool.or_eq_false_iff,
      beq_eq_false_iff_ne, ne_eq, List.mem_cons]
    constructor
    · rintro ⟨⟨hm, hne⟩, hall⟩
      exact ⟨hm, fun x hx => by rcases hx with rfl | hx; exact hne; exact hall x hx⟩
    · rintro ⟨hm, hall⟩
      exact ⟨⟨hm, (hall s (Or.inl rfl)).1, (hall s (Or.inl rfl)).2⟩,
             fun x hx => hall x (Or.inr hx)⟩

theorem notMem_childIds (db : DB) (tid : String) (x : String) :
    x ∉ childIdsOf db tid ↔
      ∀ s ∈ db.tasks.filter (fun t => t.parent_task_id == some tid), x ≠ s.id := by
  simp only [childIdsOf, List.mem_map, not_exists]
  constructor
  · intro h s hs
    intro hx
    exact h s ⟨hs, hx.symm⟩
  · rintro h s ⟨hs, hx⟩
    exact h s hs hx.symm

/-- C7: `deleteTask` without confirmation is a no-op; a confirmed delete of
an existing task removes exactly that task, its direct children, and the
comments, dependency edges (either direction) and history rows of the task
and of each child, leaving every other row of every table unchanged. -/
theorem C7_delete_cascade :
    (∀ (db : DB) (tid : String),
      (deleteTask db tid false).db = db ∧
      (deleteTask db tid false).res.isError = false) ∧
    (∀ (db : DB) (tid : String) (task : TaskRec),
      findTask db tid = some task →
      (∀ t : TaskRec, t ∈ (deleteTask db tid true).db.tasks ↔
        t ∈ db.tasks ∧ t.id ≠ tid ∧ t.parent_task_id ≠ some tid) ∧
      (∀ c : TaskComment, c ∈ (deleteTask db tid true).db.comments ↔
        c ∈ db.comments ∧ c.task_id ≠ tid ∧ c.task_id ∉ childIdsOf db tid) ∧
      (∀ d : Dep, d ∈ (deleteTask db tid true).db.deps ↔
        d ∈ db.deps ∧ (d.task_id ≠ tid ∧ d.depends_on_id ≠ tid) ∧
        d.task_id ∉ childIdsOf db tid ∧ d.depends_on_id ∉ childIdsOf db tid) ∧
      (∀ h : HistEntry, h ∈ (deleteTask db tid true).db.history ↔
        h ∈ db.history ∧ h.task_id ≠ tid ∧ h.task_id ∉ childIdsOf db tid) ∧
      (deleteTask db tid true).res.isError = false) := by
  constructor
  · intro db tid
    exact ⟨rfl, rfl⟩
  · intro db tid task hfind
    refine ⟨?_, ?_, ?_, ?_, ?_⟩
    · intro t
      simp only [deleteTask, hfind, Bool.not_true, Bool.false_eq_true, if_false,
        List.mem_filter, cascadeFold_tasks, bne_iff_ne, ne_eq]
      tauto
    · intro c
      simp only [deleteTask, hfind, Bool.not_true, Bool.false_eq_true, if_false,
        List.mem_filter, cascadeFold_comments_mem, bne_iff_ne, ne_eq,
        notMem_childIds]
      tauto
    · intro d
      simp only [deleteTask, hfind, Bool.not_true, Bool.false_eq_true, if_false,
        List.mem_filter, cascadeFold_deps_mem, Bool.not_eq_true',
        Bool.or_eq_false_iff, beq_eq_false_iff_ne, ne_eq, notMem_childIds]
      constructor
      · rintro ⟨⟨hm, hall⟩, hne1, hne2⟩
        exact ⟨hm, ⟨hne1, hne2⟩, fun s hs => (hall s hs).1, fun s hs => (hall s hs).2⟩
      · rintro ⟨hm, ⟨hne1, hne2⟩, h1, h2⟩
        exact ⟨⟨hm, fun s hs => ⟨h1 s hs, h2 s hs⟩⟩, hne1, hne2⟩
    · intro h
      simp only [deleteTask, hfind, Bool.not_true, Bool.false_eq_true, if_false,
        List.mem_filter, cascadeFold_history_mem, bne_iff_ne, ne_eq,
        notMem_childIds]
      tauto
    · simp only [deleteTask, hfind, Bool.not_true, Bool.false_eq_true, if_false]
      rfl

def w7parent : TaskRec :=
  ⟨"p1", "proj", "P", "", "in_progress", none, 5, "a", 0, 0, none, none, none, none, 0,
   none, none, StoredJson.absent, none⟩

def w7sub1 : TaskRec :=
  ⟨"s1", "proj", "S1", "", "todo", none, 5, "a", 1, 1, some "p1", none, none, none, 0,
   none, none, StoredJson.absent, none⟩

def w7sub2 : TaskRec :=
  ⟨"s2", "proj", "S2", "", "done", none, 5, "a", 2, 2, some "p1", none, none, none, 0,
   none, none, StoredJson.absent, none⟩

def w7other : TaskRec :=
  ⟨"o1", "proj", "O", "", "backlog", none, 5, "a", 3, 3, none, none, none, none, 0,
   none, none, StoredJson.absent, none⟩

def w7cm1 : TaskComment := ⟨"cm1", "s1", "a", "x", "comment", none, StoredJson.absent, 0⟩

def w7cm2 : TaskComment := ⟨"cm2", "o1", "a", "y", "comment", none, StoredJson.absent, 0⟩

def w7dep : Dep := ⟨"o1", "p1", "a"⟩

def w7hh1 : HistEntry := ⟨"hh1", "p1", none, "backlog", "a", 0, none⟩

def w7hh2 : HistEntry := ⟨"hh2", "o1", none, "backlog", "a", 0, none⟩

def w7db : DB :=
  ⟨[w7parent, w7sub1, w7sub2, w7other], [w7cm1, w7cm2], [w7dep], [w7hh1, w7hh2]⟩

/-- Witness for C7 at a concrete store: an unconfirmed delete changes
nothing; a confirmed delete of the parent removes it, both subtasks, the
subtask's comment, the dependency edge and the parent's history, while the
unrelated task, its comment and its history survive. -/
theorem C7_delete_cascade_witness :
    ((deleteTask w7db "p1" false).db = w7db ∧
     (deleteTask w7db "p1" false).res.isError = false) ∧
    w7parent ∉ (deleteTask w7db "p1" true).db.tasks ∧
    w7sub1 ∉ (deleteTask w7db "p1" true).db.tasks ∧
    w7sub2 ∉ (deleteTask w7db "p1" true).db.tasks ∧
    w7other ∈ (deleteTask w7db "p1" true).db.tasks ∧
    w7cm1 ∉ (deleteTask w7db "p1" true).db.comments ∧
    w7cm2 ∈ (deleteTask w7db "p1" true).db.comments ∧
    w7dep ∉ (deleteTask w7db "p1" true).db.deps ∧
    w7hh1 ∉ (deleteTask w7db "p1" true).db.history ∧
    w7hh2 ∈ (deleteTask w7db "p1" true).db.history ∧
    (deleteTask w7db "p1" true).res.isError = false := by
  have K := C7_delete_cascade.2 w7db "p1" w7parent (by decide)
  refine ⟨C7_delete_cascade.1 w7db "p1", ?_, ?_, ?_, ?_, ?_, ?_, ?_, ?_, ?_, K.2.2.2.2⟩
  · intro h
    exact ((K.1 w7parent).mp h).2.1 rfl
  · intro h
    exact ((K.1 w7sub1).mp h).2.2 rfl
  · intro h
    exact ((K.1 w7sub2).mp h).2.2 rfl
  · exact (K.1 w7other).mpr ⟨by decide, by decide, by decide⟩
  · intro h
    exact ((K.2.1 w7cm1).mp h).2.2 (by decide)
  · exact (K.2.1 w7cm2).mpr ⟨by decide, by decide, by decide⟩
  · intro h
    exact ((K.2.2.1 w7dep).mp h).2.1.2 rfl
  · intro h
    exact ((K.2.2.2.1 w7hh1).mp h).2.1 rfl
  · exact (K.2.2.2.1 w7hh2).mpr ⟨by decide, by decide, by decide⟩

theorem strContains_joinSep (sep : String) (l : List String) (a : String)
    (ha : a ∈ l) : strContains (joinSep sep l) a := by
  induction l with
  | nil => cases ha
  | cons x xs ih =>
    rw [List.mem_cons] at ha
    cases xs with
    | nil =>
      rcases ha with rfl | h
      · exact strContains_self a
      · cases h
    | cons y ys =>
      rcases ha with rfl | h
      · exact strContains_append_left _ (strContains_append_left _ (strContains_self a))
      · exact strContains_append_right _ (ih h)

-- ── C3: transition validation ────────────────────────────────────────

def c3create : CreateParams := ⟨some "p", "T", "", 5, some "todo", none, none, none⟩

def c3db : DB := (createTask emptyDB "a" "t1" "h1" 0 c3create).db

def c3u : UpdateParams := { baseUpdate "t1" with status := some "done" }

/-- C3 counterexample: the claim says a requested status change is rejected
unless the target is in the allowed-next set of the task's current status
under its pipeline.  But `createTask` accepts any supplied status, and for
a current status that is not a key of the transition table (`todo` under
the forge pipeline) `transitions[task.status]` is `undefined`, so the
validation is skipped entirely: the reachable task below moves from `todo`
straight to `done` without error, although `done` is not in the (empty)
allowed-next set of `todo` under the forge pipeline. -/
theorem C3_counterexample :
    Reachable c3db ∧
    (findTask c3db "t1").map TaskRec.status = some "todo" ∧
    getTransitions "p" "todo" = none ∧
    (updateTask c3db "b" "c1" "h2" 1 c3u).res.isError = false ∧
    (findTask (updateTask c3db "b" "c1" "h2" 1 c3u).db "t1").map TaskRec.status =
      some "done" := by
  refine ⟨?_, by decide, by decide, by decide, by decide⟩
  exact Reachable.create emptyDB "a" "t1" "h1" 0 c3create Reachable.empty

/-- C3 (amended): for a task whose current status is a key of its
pipeline's transition table, and an `updateTask` call with a passing (or
absent) optimistic lock carrying a truthy status, the status change is
rejected — with a typed error naming the current status, the attempted
status, the active pipeline and every allowed target, and with the store
left unchanged — unless the target is in the allowed-next set; and a
status-only call whose target equals the current status succeeds as a
silent no-op: no error, and no change at all to the store (hence no
history entry and no audit comment). -/
theorem C3_transition_validation :
    (∀ (db : DB) (agent commentId histId : String) (time : Nat) (u : UpdateParams)
      (task : TaskRec) (s : String) (allowed : List String),
      findTask db u.task_id = some task →
      (u.expected_status = none ∨ u.expected_status = some task.status) →
      u.status = some s → s ≠ "" → ¬ s = task.status →
      getTransitions task.project task.status = some allowed →
      s ∉ allowed →
      (updateTask db agent commentId histId time u).res.isError = true ∧
      (updateTask db agent commentId histId time u).db = db ∧
      strContains (updateTask db agent commentId histId time u).res.text task.status ∧
      strContains (updateTask db agent commentId histId time u).res.text s ∧
      strContains (updateTask db agent commentId histId time u).res.text
        (pipelineName task.project) ∧
      (∀ a ∈ allowed, strContains (updateTask db agent commentId histId time u).res.text a)) ∧
    (∀ (db : DB) (agent commentId histId : String) (time : Nat) (tid : String)
      (task : TaskRec),
      findTask db tid = some task → task.status ≠ "" →
      (updateTask db agent commentId histId time
        { baseUpdate tid with status := some task.status }).db = db ∧
      (updateTask db agent commentId histId time
        { baseUpdate tid with status := some task.status }).res.isError = false) := by
  constructor
  · intro db agent commentId histId time u task s allowed hfind hexp hs hne hneq htr hmem
    have hred : updateTask db agent commentId histId time u =
        ⟨db, errRes ("Error: Invalid status transition '" ++ task.status ++ "' → '" ++
          s ++ "' (" ++ pipelineName task.project ++ " pipeline). " ++
          (if 0 < allowed.length then
            "Allowed: " ++ task.status ++ " → " ++ joinSep " | " allowed
          else "No transitions from '" ++ task.status ++ "'"))⟩ := by
      rcases hexp with hexp | hexp <;>
        simp only [updateTask, hfind, hexp, hs, ne_eq, not_true_eq_false, and_false,
          if_false, hne, hneq, not_false_iff, and_true, and_self, if_true,
          updateTaskValidate, htr, hmem, gt_iff_lt]
    rw [hred]
    refine ⟨rfl, rfl, ?_, ?_, ?_, ?_⟩
    · exact strContains_append_left _ (strContains_append_left _
        (strContains_append_left _ (strContains_append_left _
          (strContains_append_left _ (strContains_append_left _
            (strContains_append_right _ (strContains_self _)))))))
    · exact strContains_append_left _ (strContains_append_left _
        (strContains_append_left _ (strContains_append_left _
          (strContains_append_right _ (strContains_self _)))))
    · exact strContains_append_left _ (strContains_append_left _
        (strContains_append_right _ (strContains_self _)))
    · intro a ha
      have hlen : 0 < allowed.length := List.length_pos.mpr (List.ne_nil_of_mem ha)
      show strContains (_ ++ _) a
      rw [if_pos hlen]
      exact strContains_append_right _ (strContains_append_right _
        (strContains_joinSep " | " allowed a ha))
  · intro db agent commentId histId time tid task hfind hne
    constructor <;>
      simp [updateTask, hfind, baseUpdate, hne, updateTaskValidate, updateTaskGuard,
        updateTaskParent, updateTaskApply, changedFields, okRes]

-- ── Dependency graph theory (C1) ─────────────────────────────────────

/-- `DependsOn deps x y`: `x` reaches `y` along `blocks` edges — each step
goes from a task to one it directly depends on. -/
inductive DependsOn (deps : List Dep) : String → String → Prop
  | refl (a : String) : DependsOn deps a a
  | head {a b c : String} :
      (∃ d ∈ deps, d.task_id = a ∧ d.depends_on_id = b) →
      DependsOn deps b c → DependsOn deps a c

/-- The dependency graph is acyclic: no edge closes a directed cycle. -/
def AcyclicDeps (deps : List Dep) : Prop :=
  ∀ d ∈ deps, ¬ DependsOn deps d.depends_on_id d.task_id

theorem DependsOn.out_trans {deps : List Dep} {a b c : String}
    (h1 : DependsOn deps a b) (h2 : DependsOn deps b c) : DependsOn deps a c := by
  induction h1 with
  | refl => exact h2
  | head hd _ ih => exact .head hd (ih h2)

theorem DependsOn.mono {E E' : List Dep} (hsub : ∀ d, d ∈ E' → d ∈ E)
    {x y : String} (h : DependsOn E' x y) : DependsOn E x y := by
  induction h with
  | refl => exact .refl _
  | head hd _ ih =>
    obtain ⟨d, hdm, hdx, hdb⟩ := hd
    exact .head ⟨d, hsub d hdm, hdx, hdb⟩ ih

theorem acyclic_subset {E E' : List Dep} (hsub : ∀ d, d ∈ E' → d ∈ E)
    (hac : AcyclicDeps E) : AcyclicDeps E' :=
  fun d hd hcy => hac d (hsub d hd) (hcy.mono hsub)

/-- A reversed edge: some stored edge says `y` directly depends on `x`. -/
def revEdge (deps : List Dep) (x y : String) : Prop :=
  ∃ d ∈ deps, d.depends_on_id = x ∧ d.task_id = y

/-- Reachability along reversed edges (what the BFS explores). -/
inductive RevReach (deps : List Dep) : String → String → Prop
  | refl (a : String) : RevReach deps a a
  | step {a b c : String} : revEdge deps a b → RevReach deps b c → RevReach deps a c

theorem RevReach.snoc {deps : List Dep} {a b c : String}
    (h : RevReach deps a b) (he : revEdge deps b c) : RevReach deps a c := by
  induction h with
  | refl => exact .step he (.refl _)
  | step hd _ ih => exact .step hd (ih he)

theorem revReach_of_dependsOn {deps : List Dep} {a b : String}
    (h : DependsOn deps b a) : RevReach deps a b := by
  induction h with
  | refl => exact .refl _
  | head hd _ ih =>
    obtain ⟨d, hdm, hdx, hdb⟩ := hd
    exact ih.snoc ⟨d, hdm, hdb, hdx⟩

theorem mem_depsDependents {deps : List Dep} {x y : String} :
    y ∈ depsDependents deps x ↔ revEdge deps x y := by
  simp only [depsDependents, List.mem_map, List.mem_filter, revEdge, beq_iff_eq]
  constructor
  · rintro ⟨d, ⟨hdm, hdb⟩, hdt⟩
    exact ⟨d, hdm, hdb, hdt⟩
  · rintro ⟨d, hdm, hdb, hdt⟩
    exact ⟨d, ⟨hdm, hdb⟩, hdt⟩

/-- Soundness of a `false` BFS answer: with a closed, target-free visited
set, no node of the search frontier reverse-reaches the target. -/
theorem bfsFind_false_sound (deps : List Dep) (target : String) :
    ∀ (visited queue : List String),
      bfsFind deps target visited queue = false →
      (∀ v ∈ visited, v ≠ target ∧ ∀ y, revEdge deps v y → y ∈ visited ∨ y ∈ queue) →
      ∀ x, (x ∈ visited ∨ x ∈ queue) → ¬ RevReach deps x target := by
  intro visited queue
  induction visited, queue using bfsFind.induct deps target with
  | case1 visited =>
    intro _ hinv x hx hreach
    have hxv : x ∈ visited := by
      rcases hx with h | h
      · exact h
      · cases h
    have key : ∀ p q, RevReach deps p q → q = target → p ∈ visited → False := by
      intro p q hr
      induction hr with
      | refl =>
        intro hq hp
        exact (hinv _ hp).1 hq
      | step hd _ ih =>
        intro hq hp
        rcases (hinv _ hp).2 _ hd with hy | hy
        · exact ih hq hy
        · cases hy
    exact key x target hreach rfl hxv
  | case2 visited rest =>
    intro hfalse
    simp [bfsFind] at hfalse
  | case3 visited cur rest hne hvis ih =>
    intro hfalse hinv x hx
    have hfalse' : bfsFind deps target visited rest = false := by
      rw [bfsFind, if_neg hne, if_pos hvis] at hfalse
      exact hfalse
    apply ih hfalse'
    · intro v hv
      refine ⟨(hinv v hv).1, fun y hy => ?_⟩
      rcases (hinv v hv).2 y hy with h | h
      · exact Or.inl h
      · rcases List.mem_cons.mp h with rfl | h
        · exact Or.inl hvis
        · exact Or.inr h
    · rcases hx with h | h
      · exact Or.inl h
      · rcases List.mem_cons.mp h with rfl | h
        · exact Or.inl hvis
        · exact Or.inr h
  | case4 visited cur rest hne hvis ih =>
    intro hfalse hinv x hx
    have hfalse' : bfsFind deps target (cur :: visited)
        (rest ++ depsDependents deps cur) = false := by
      rw [bfsFind, if_neg hne, if_neg hvis] at hfalse
      exact hfalse
    apply ih hfalse'
    · intro v hv
      rcases List.mem_cons.mp hv with rfl | hv
      · refine ⟨hne, fun y hy => ?_⟩
        exact Or.inr (List.mem_append_right _ (mem_depsDependents.mpr hy))
      · refine ⟨(hinv v hv).1, fun y hy => ?_⟩
        rcases (hinv v hv).2 y hy with h | h
        · exact Or.inl (List.mem_cons_of_mem _ h)
        · rcases List.mem_cons.mp h with rfl | h
          · exact Or.inl (List.mem_cons_self _ _)
          · exact Or.inr (List.mem_append_left _ h)
    · rcases hx with h | h
      · exact Or.inl (List.mem_cons_of_mem _ h)
      · rcases List.mem_cons.mp h with rfl | h
        · exact Or.inl (List.mem_cons_self _ _)
        · exact Or.inr (List.mem_append_left _ h)

/-- Completeness: whenever the target is reverse-reachable from the start
node, the BFS finds it. -/
theorem bfsFind_complete (deps : List Dep) (a b : String)
    (h : RevReach deps a b) : bfsFind deps b [] [a] = true := by
  cases hb : bfsFind deps b [] [a] with
  | true => rfl
  | false =>
    exact absurd h (bfsFind_false_sound deps b [] [a] hb
      (by intro v hv; cases hv) a (Or.inr (List.mem_cons_self _ _)))

/-- Splitting a walk in the extended graph at the first use of the new
edge (which cannot be used twice, the new edge's endpoints not being
back-connected). -/
theorem dependsOn_append_elim {E : List Dep} {e : Dep}
    (hnb : ¬ DependsOn E e.depends_on_id e.task_id) :
    ∀ {x y : String}, DependsOn (E ++ [e]) x y →
      DependsOn E x y ∨ (DependsOn E x e.task_id ∧ DependsOn E e.depends_on_id y) := by
  intro x y h
  induction h with
  | refl => exact Or.inl (.refl _)
  | head hd htail ih =>
    obtain ⟨d, hdm, hdx, hdb⟩ := hd
    rcases List.mem_append.mp hdm with hdE | hde
    · rcases ih with hE | ⟨h1, h2⟩
      · exact Or.inl (.head ⟨d, hdE, hdx, hdb⟩ hE)
      · exact Or.inr ⟨.head ⟨d, hdE, hdx, hdb⟩ h1, h2⟩
    · have hde' : d = e := by simpa using hde
      subst hde'
      rcases ih with hE | ⟨h1, h2⟩
      · refine Or.inr ⟨?_, ?_⟩
        · rw [← hdx]
          exact .refl _
        · rw [← hdb] at hE
          exact hE
      · rw [← hdb] at h1
        exact absurd h1 hnb

/-- Inserting an edge whose reverse closure avoids its source keeps the
graph acyclic. -/
theorem acyclic_insert {E : List Dep} {e : Dep} (hac : AcyclicDeps E)
    (hnb : ¬ DependsOn E e.depends_on_id e.task_id) : AcyclicDeps (E ++ [e]) := by
  intro d hd hcy
  rcases List.mem_append.mp hd with hdE | hde
  · rcases dependsOn_append_elim hnb hcy with hE | ⟨h1, h2⟩
    · exact hac d hdE hE
    · exact hnb ((h2.out_trans (.head ⟨d, hdE, rfl, rfl⟩ (.refl _))).out_trans h1)
  · have hde' : d = e := by simpa using hde
    subst hde'
    rcases dependsOn_append_elim hnb hcy with hE | ⟨h1, _⟩
    · exact hnb hE
    · exact hnb h1

-- ── Per-operation frame lemmas for the edge table ────────────────────

theorem createTask_deps (db : DB) (agent id histId : String) (time : Nat)
    (p : CreateParams) : (createTask db agent id histId time p).db.deps = db.deps := by
  unfold createTask createTaskInsert
  (repeat' split) <;> rfl

theorem updateTaskTx_deps (db : DB) (agent commentId histId : String) (time : Nat)
    (u : UpdateParams) (task : TaskRec) (status' : Option String) :
    (updateTaskTx db agent commentId histId time u task status').db.deps = db.deps := by
  unfold updateTaskTx
  dsimp only
  (repeat' split) <;> rfl

theorem updateTaskApply_deps (db : DB) (agent commentId histId : String) (time : Nat)
    (u : UpdateParams) (task : TaskRec) (status' : Option String) :
    (updateTaskApply db agent commentId histId time u task status').db.deps = db.deps := by
  unfold updateTaskApply
  split
  · rfl
  · exact updateTaskTx_deps db agent commentId histId time u task status'

theorem updateTaskParent_deps (db : DB) (agent commentId histId : String) (time : Nat)
    (u : UpdateParams) (task : TaskRec) (status' : Option String) :
    (updateTaskParent db agent commentId histId time u task status').db.deps = db.deps := by
  unfold updateTaskParent
  rcases hp : u.parent_task_id with _ | (_ | pid) <;> simp only [hp]
  · exact updateTaskApply_deps db agent commentId histId time u task status'
  · exact updateTaskApply_deps db agent commentId histId time u task status'
  · split
    · rfl
    · cases hf : findTask db pid with
      | none =>
        simp only [hf]
      | some parent =>
        simp only [hf]
        split
        · rfl
        · split
          · rfl
          · exact updateTaskApply_deps db agent commentId histId time u task status'

theorem updateTaskGuard_deps (db : DB) (agent commentId histId : String) (time : Nat)
    (u : UpdateParams) (task : TaskRec) (status' : Option String) :
    (updateTaskGuard db agent commentId histId time u task status').db.deps = db.deps := by
  unfold updateTaskGuard
  split
  · rfl
  · exact updateTaskParent_deps db agent commentId histId time u task status'

theorem updateTaskValidate_deps (db : DB) (agent commentId histId : String) (time : Nat)
    (u : UpdateParams) (task : TaskRec) (status' : Option String) :
    (updateTaskValidate db agent commentId histId time u task status').db.deps = db.deps := by
  unfold updateTaskValidate
  rcases status' with _ | st
  · exact updateTaskGuard_deps db agent commentId histId time u task none
  · dsimp only
    split
    · cases htr : getTransitions task.project task.status with
      | none =>
        simp only [htr]
        exact updateTaskGuard_deps db agent commentId histId time u task (some st)
      | some allowed =>
        simp only [htr]
        split
        · rfl
        · exact updateTaskGuard_deps db agent commentId histId time u task (some st)
    · exact updateTaskGuard_deps db agent commentId histId time u task (some st)

theorem updateTask_deps (db : DB) (agent commentId histId : String) (time : Nat)
    (u : UpdateParams) : (updateTask db agent commentId histId time u).db.deps = db.deps := by
  unfold updateTask
  cases hf : findTask db u.task_id with
  | none =>
    simp only [hf]
  | some task =>
    simp only [hf]
    cases he : u.expected_status with
    | none =>
      simp only [he]
      exact updateTaskValidate_deps db agent commentId histId time u task _
    | some e =>
      simp only [he]
      split
      · rfl
      · exact updateTaskValidate_deps db agent commentId histId time u task _

theorem addComment_deps (db : DB) (agent cid : String) (time : Nat)
    (tid content : String) : (addComment db agent cid time tid content).db.deps = db.deps := by
  unfold addComment
  (repeat' split) <;> rfl

theorem submitReview_deps (db : DB) (agent rid : String) (time : Nat)
    (tid verdict content : String) (categories : List String) :
    (submitReview db agent rid time tid verdict content categories).db.deps = db.deps := by
  unfold submitReview
  (repeat' split) <;> rfl

theorem setCriteria_deps (db : DB) (time : Nat) (tid : String) (cs : List String) :
    (setCriteria db time tid cs).db.deps = db.deps := by
  unfold setCriteria
  dsimp only
  (repeat' split) <;> rfl

theorem checkCriterion_deps (db : DB) (agent : String) (time : Nat)
    (tid critId : String) (checked : Bool) :
    (checkCriterion db agent time tid critId checked).db.deps = db.deps := by
  unfold checkCriterion
  dsimp only
  (repeat' split) <;> rfl

theorem removeDependency_deps_subset (db : DB) (a b : String) :
    ∀ d ∈ (removeDependency db a b).db.deps, d ∈ db.deps := by
  unfold removeDependency
  dsimp only
  split
  · exact fun d hd => hd
  · exact fun d hd => (List.mem_filter.mp hd).1

theorem deleteTask_deps_subset (db : DB) (tid : String) (confirm : Bool) :
    ∀ d ∈ (deleteTask db tid confirm).db.deps, d ∈ db.deps := by
  unfold deleteTask
  dsimp only
  (repeat' split)
  all_goals
    first
      | exact fun d hd => hd
      | (intro d hd
         exact ((cascadeFold_deps_mem _ _ _).mp (List.mem_filter.mp hd).1).1)

/-- What `addDependency` does to the edge table: either nothing (an error
or a duplicate `INSERT OR IGNORE`), or it appends the checked edge after
the BFS answered `false`. -/
theorem addDependency_deps_cases (db : DB) (agent a b : String) :
    (addDependency db agent a b).db.deps = db.deps ∨
    ((addDependency db agent a b).db.deps = db.deps ++ [⟨a, b, agent⟩] ∧
     bfsFind db.deps b [] [a] = false) := by
  unfold addDependency
  split
  · exact Or.inl rfl
  · split
    · exact Or.inl rfl
    · exact Or.inl rfl
    · rename_i t1 t2 heq
      split
      · exact Or.inl rfl
      · rename_i hbfs
        dsimp only
        split
        · exact Or.inl rfl
        · exact Or.inr ⟨rfl, eq_false_of_ne_true hbfs⟩

/-- C1: starting from the empty store, the dependency graph in `task_deps`
is acyclic after every operation; and an `addDependency` call whose new
edge would close a cycle (the self-reference case included) returns a
typed error and leaves the store — the graph in particular — exactly as it
was. -/
theorem C1_dependency_acyclicity :
    (∀ db : DB, Reachable db → AcyclicDeps db.deps) ∧
    (∀ (db : DB) (agent a b : String),
      (a = b ∨ DependsOn db.deps b a) →
      (addDependency db agent a b).db = db ∧
      (addDependency db agent a b).res.isError = true) := by
  constructor
  · intro db hr
    induction hr with
    | empty =>
      intro d hd
      cases hd
    | create db agent id histId time p hr ih =>
      rw [createTask_deps]
      exact ih
    | update db agent commentId histId time u hr ih =>
      rw [updateTask_deps]
      exact ih
    | delete db tid confirm hr ih =>
      exact acyclic_subset (deleteTask_deps_subset db tid confirm) ih
    | addDep db agent a b hr ih =>
      rcases addDependency_deps_cases db agent a b with h | ⟨h, hbfs⟩
      · rw [h]
        exact ih
      · rw [h]
        apply acyclic_insert ih
        intro hdep
        have := bfsFind_complete db.deps a b (revReach_of_dependsOn hdep)
        rw [hbfs] at this
        cases this
    | rmDep db a b hr ih =>
      exact acyclic_subset (removeDependency_deps_subset db a b) ih
    | comment db agent cid time tid content hr ih =>
      rw [addComment_deps]
      exact ih
    | review db agent rid time tid verdict content categories hr ih =>
      rw [submitReview_deps]
      exact ih
    | setCrit db time tid criteria hr ih =>
      rw [setCriteria_deps]
      exact ih
    | checkCrit db agent time tid critId checked hr ih =>
      rw [checkCriterion_deps]
      exact ih
  · intro db agent a b h
    by_cases hab : a = b
    · unfold addDependency
      rw [if_pos hab]
      exact ⟨rfl, rfl⟩
    · have hdep : DependsOn db.deps b a := h.resolve_left hab
      unfold addDependency
      rw [if_neg hab]
      cases hf1 : findTask db a with
      | none =>
        simp only [hf1]
        refine ⟨?_, ?_⟩ <;> first | rfl | trivial
      | some t1 =>
        cases hf2 : findTask db b with
        | none =>
          simp only [hf1, hf2]
          refine ⟨?_, ?_⟩ <;> first | rfl | trivial
        | some t2 =>
          have hbfs : bfsFind db.deps b [] [a] = true :=
            bfsFind_complete db.deps a b (revReach_of_dependsOn hdep)
          simp only [hf1, hf2, hbfs, if_true]
          refine ⟨?_, ?_⟩ <;> first | rfl | trivial

def c1pA : CreateParams := ⟨some "p", "A", "", 5, none, none, none, none⟩

def c1pB : CreateParams := ⟨some "p", "B", "", 5, none, none, none, none⟩

def c1dbA : DB := (createTask emptyDB "a" "t1" "h1" 0 c1pA).db

def c1dbB : DB := (createTask c1dbA "a" "t2" "h2" 0 c1pB).db

def c1cyc : DB := ⟨[], [], [⟨"t1", "t2", "ag"⟩], []⟩

/-- Witness for C1: a concrete two-task reachable store has an acyclic
graph, and adding the reverse of an existing edge is rejected without any
change. -/
theorem C1_dependency_acyclicity_witness :
    AcyclicDeps c1dbB.deps ∧
    ((addDependency c1cyc "ag" "t2" "t1").db = c1cyc ∧
     (addDependency c1cyc "ag" "t2" "t1").res.isError = true) :=
  ⟨C1_dependency_acyclicity.1 c1dbB
     (Reachable.create c1dbA "a" "t2" "h2" 0 c1pB
       (Reachable.create emptyDB "a" "t1" "h1" 0 c1pA Reachable.empty)),
   C1_dependency_acyclicity.2 c1cyc "ag" "t2" "t1"
     (Or.inr (DependsOn.head ⟨⟨"t1", "t2", "ag"⟩, by decide, rfl, rfl⟩
       (DependsOn.refl "t2")))⟩

-- ── Task-table invariants (C2, C6) ───────────────────────────────────

/-- The `tasks` primary key: all ids distinct. -/
def nodupIds (l : List TaskRec) : Prop := (l.map TaskRec.id).Nodup

/-- Nesting is at most one level and never self-referential: every stored
parent reference names a different, existing task, and every row carrying
that id is itself parentless. -/
def parentFlat (l : List TaskRec) : Prop :=
  ∀ t ∈ l, ∀ pid, t.parent_task_id = some pid →
    pid ≠ t.id ∧ (∃ pt ∈ l, pt.id = pid) ∧
    ∀ pt ∈ l, pt.id = pid → pt.parent_task_id = none

/-- Every task's status lies in the status set of its project's pipeline. -/
def statusInv (l : List TaskRec) : Prop :=
  ∀ t ∈ l, t.status ∈ pipelineStatuses t.project

theorem truthyOpt_eq_some {o : Option String} {x : String}
    (h : truthyOpt o = some x) : o = some x ∧ x ≠ "" := by
  rcases o with _ | s
  · cases h
  · simp only [truthyOpt] at h
    by_cases hs : s = ""
    · rw [if_pos hs] at h
      cases h
    · rw [if_neg hs] at h
      cases h
      exact ⟨rfl, hs⟩

theorem findTask_mem_id {db : DB} {tid : String} {t : TaskRec}
    (h : findTask db tid = some t) : t ∈ db.tasks ∧ t.id = tid := by
  refine ⟨List.mem_of_find?_eq_some h, ?_⟩
  have := List.find?_some h
  simpa using this

theorem taskIdUsed_false {db : DB} {i : String} (h : taskIdUsed db i = false) :
    ∀ t ∈ db.tasks, t.id ≠ i := by
  intro t ht
  have := List.any_eq_false.mp h t ht
  simpa using this

theorem nodup_task_eq {l : List TaskRec} (h : nodupIds l) {t t' : TaskRec}
    (ht : t ∈ l) (ht' : t' ∈ l) (hid : t.id = t'.id) : t = t' :=
  List.inj_on_of_nodup_map h ht ht' hid

theorem childCount_zero {db : DB} {tid : String} (h : childCount db tid = 0) :
    ∀ t ∈ db.tasks, t.parent_task_id ≠ some tid := by
  intro t ht hp
  have hmem : t ∈ db.tasks.filter (fun t => t.parent_task_id == some tid) :=
    List.mem_filter.mpr ⟨ht, by simp [hp]⟩
  rw [List.length_eq_zero.mp h] at hmem
  cases hmem

theorem nodupIds_map {l : List TaskRec} {g : TaskRec → TaskRec}
    (hg : ∀ t, (g t).id = t.id) (h : nodupIds l) : nodupIds (l.map g) := by
  unfold nodupIds at *
  rw [List.map_map]
  have : l.map (TaskRec.id ∘ g) = l.map TaskRec.id :=
    List.map_congr_left (fun t _ => hg t)
  rw [this]
  exact h

theorem statusInv_map {l : List TaskRec} {g : TaskRec → TaskRec}
    (hg : ∀ t ∈ l, (g t).status = t.status ∧ (g t).project = t.project)
    (h : statusInv l) : statusInv (l.map g) := by
  intro t' ht'
  obtain ⟨t, ht, rfl⟩ := List.mem_map.mp ht'
  rw [(hg t ht).1, (hg t ht).2]
  exact h t ht

theorem statusInv_subset {l l' : List TaskRec} (hsub : ∀ t ∈ l', t ∈ l)
    (h : statusInv l) : statusInv l' :=
  fun t ht => h t (hsub t ht)

theorem parentFlat_map {l : List TaskRec} {g : TaskRec → TaskRec}
    (hid : ∀ t, (g t).id = t.id) (hp : ∀ t, (g t).parent_task_id = t.parent_task_id)
    (h : parentFlat l) : parentFlat (l.map g) := by
  intro t' ht' pid hpt'
  obtain ⟨t, ht, rfl⟩ := List.mem_map.mp ht'
  rw [hp t] at hpt'
  obtain ⟨hne, ⟨pt0, hpt0, hpt0id⟩, hall⟩ := h t ht pid hpt'
  refine ⟨(hid t) ▸ hne, ⟨g pt0, List.mem_map_of_mem g hpt0, (hid pt0) ▸ hpt0id⟩, ?_⟩
  intro pt' hpt'' hid'
  obtain ⟨pt, hpt, rfl⟩ := List.mem_map.mp hpt''
  rw [hp pt]
  exact hall pt hpt ((hid pt) ▸ hid')

theorem getDefaultStatus_mem (proj : String) :
    getDefaultStatus proj ∈ pipelineStatuses proj := by
  unfold getDefaultStatus pipelineStatuses
  by_cases hops : isOpsProject proj = true <;> simp [hops] <;> decide

theorem getTransitions_total (proj s : String) (hs : s ∈ pipelineStatuses proj) :
    ∃ allowed, getTransitions proj s = some allowed ∧
      ∀ x ∈ allowed, x ∈ pipelineStatuses proj := by
  unfold getTransitions pipelineStatuses at *
  cases hops : isOpsProject proj with
  | true =>
    simp only [hops, if_true] at hs ⊢
    simp only [OPS_STATUSES, List.mem_cons, List.not_mem_nil, or_false] at hs
    rcases hs with rfl | rfl | rfl | rfl <;> exact ⟨_, rfl, by decide⟩
  | false =>
    simp only [hops, Bool.false_eq_true, if_false] at hs ⊢
    simp only [FORGE_STATUSES, List.mem_cons, List.not_mem_nil, or_false] at hs
    rcases hs with rfl | rfl | rfl | rfl | rfl | rfl | rfl | rfl | rfl <;>
      exact ⟨_, rfl, by decide⟩

theorem addDependency_tasks (db : DB) (agent a b : String) :
    (addDependency db agent a b).db.tasks = db.tasks := by
  unfold addDependency
  (repeat' split) <;> rfl

theorem removeDependency_tasks (db : DB) (a b : String) :
    (removeDependency db a b).db.tasks = db.tasks := by
  unfold removeDependency
  dsimp only
  split <;> rfl

theorem addComment_tasks (db : DB) (agent cid : String) (time : Nat)
    (tid content : String) : (addComment db agent cid time tid content).db.tasks = db.tasks := by
  unfold addComment
  (repeat' split) <;> rfl

theorem submitReview_tasks (db : DB) (agent rid : String) (time : Nat)
    (tid verdict content : String) (categories : List String) :
    (submitReview db agent rid time tid verdict content categories).db.tasks = db.tasks := by
  unfold submitReview
  (repeat' split) <;> rfl

theorem deleteTask_tasks_subset (db : DB) (tid : String) (confirm : Bool) :
    ∀ t ∈ (deleteTask db tid confirm).db.tasks, t ∈ db.tasks := by
  unfold deleteTask
  dsimp only
  (repeat' split)
  all_goals
    first
      | exact fun t ht => ht
      | (intro t ht
         have h1 := (List.mem_filter.mp ht).1
         rw [cascadeFold_tasks] at h1
         exact (List.mem_filter.mp h1).1)

/-- A preserved-fields characterization good for both criteria writers. -/
theorem setCriteria_tasks_cases (db : DB) (time : Nat) (tid : String) (cs : List String) :
    (setCriteria db time tid cs).db.tasks = db.tasks ∨
    ∃ g : TaskRec → TaskRec, (setCriteria db time tid cs).db.tasks = db.tasks.map g ∧
      ∀ t, (g t).id = t.id ∧ (g t).parent_task_id = t.parent_task_id ∧
        (g t).status = t.status ∧ (g t).project = t.project := by
  unfold setCriteria
  cases hf : findTask db tid with
  | none => exact Or.inl rfl
  | some task =>
    simp only [hf]
    refine Or.inr ⟨_, rfl, fun t => ?_⟩
    by_cases ht : t.id == tid <;> simp [ht]

theorem checkCriterion_tasks_cases (db : DB) (agent : String) (time : Nat)
    (tid critId : String) (checked : Bool) :
    (checkCriterion db agent time tid critId checked).db.tasks = db.tasks ∨
    ∃ g : TaskRec → TaskRec, (checkCriterion db agent time tid critId checked).db.tasks =
        db.tasks.map g ∧
      ∀ t, (g t).id = t.id ∧ (g t).parent_task_id = t.parent_task_id ∧
        (g t).status = t.status ∧ (g t).project = t.project := by
  unfold checkCriterion
  cases hf : findTask db tid with
  | none => exact Or.inl rfl
  | some task =>
    simp only [hf]
    cases task.criteria with
    | nonArr len => exact Or.inl rfl
    | absent =>
      dsimp only
      split
      · exact Or.inl rfl
      · refine Or.inr ⟨_, rfl, fun t => ?_⟩
        by_cases ht : t.id == tid <;> simp [ht]
    | malformed msg =>
      dsimp only
      split
      · exact Or.inl rfl
      · refine Or.inr ⟨_, rfl, fun t => ?_⟩
        by_cases ht : t.id == tid <;> simp [ht]
    | arr xs =>
      dsimp only
      split
      · exact Or.inl rfl
      · refine Or.inr ⟨_, rfl, fun t => ?_⟩
        by_cases ht : t.id == tid <;> simp [ht]

/-- The project a `createTask` call resolves (the parent's project for a
subtask, the supplied project otherwise). -/
def resolvedProjectOf (db : DB) (p : CreateParams) : Option String :=
  match truthyOpt p.parent_task_id with
  | some pid =>
    match findTask db pid with
    | some parent => some parent.project
    | none => none
  | none => p.project

theorem createTaskInsert_tasks_cases (db : DB) (agent id histId : String) (time : Nat)
    (p : CreateParams) (rp : Option String) :
    (createTaskInsert db agent id histId time p rp).db.tasks = db.tasks ∨
    ∃ proj st, truthyOpt rp = some proj ∧ taskIdUsed db id = false ∧
      (truthyOpt p.status = some st ∨ st = getDefaultStatus proj) ∧
      (createTaskInsert db agent id histId time p rp).db.tasks = db.tasks ++
        [⟨id, proj, p.title, p.description, st, truthyOpt p.assigned_to, p.priority,
          agent, time, time, truthyOpt p.parent_task_id, none, none, none, 0, none,
          none, StoredJson.absent, truthyOpt p.due_date⟩] := by
  unfold createTaskInsert
  cases htp : truthyOpt rp with
  | none =>
    simp only [htp]
    left
    first | rfl | trivial
  | some proj =>
    simp only [htp]
    by_cases hids : (taskIdUsed db id || histIdUsed db histId) = true
    · rw [if_pos hids]
      exact Or.inl rfl
    · have h2 : (taskIdUsed db id || histIdUsed db histId) = false := by
        simpa using hids
      have hidf : taskIdUsed db id = false := (Bool.or_eq_false_iff.mp h2).1
      rw [if_neg hids]
      cases hst : truthyOpt p.status with
      | some s =>
        refine Or.inr ⟨proj, s, rfl, hidf, Or.inl rfl, ?_⟩
        simp only [hst]
      | none =>
        refine Or.inr ⟨proj, getDefaultStatus proj, rfl, hidf, Or.inr rfl, ?_⟩
        simp only [hst]

theorem createTask_tasks_cases (db : DB) (agent id histId : String) (time : Nat)
    (p : CreateParams) :
    (createTask db agent id histId time p).db.tasks = db.tasks ∨
    ∃ proj st, resolvedProjectOf db p = some proj ∧ taskIdUsed db id = false ∧
      (truthyOpt p.status = some st ∨ st = getDefaultStatus proj) ∧
      (truthyOpt p.parent_task_id = none ∨
        ∃ pid parent, truthyOpt p.parent_task_id = some pid ∧
          findTask db pid = some parent ∧ parent.parent_task_id = none ∧
          parent.project = proj) ∧
      (createTask db agent id histId time p).db.tasks = db.tasks ++
        [⟨id, proj, p.title, p.description, st, truthyOpt p.assigned_to, p.priority,
          agent, time, time, truthyOpt p.parent_task_id, none, none, none, 0, none,
          none, StoredJson.absent, truthyOpt p.due_date⟩] := by
  cases hpt : truthyOpt p.parent_task_id with
  | none =>
    have hred : createTask db agent id histId time p =
        createTaskInsert db agent id histId time p p.project := by
      unfold createTask
      rw [hpt]
    rw [hred]
    rcases createTaskInsert_tasks_cases db agent id histId time p p.project with
      h | ⟨proj, st, hproj, hidf, hstd, heq⟩
    · exact Or.inl h
    · refine Or.inr ⟨proj, st, ?_, hidf, hstd, Or.inl rfl, by rw [heq, hpt]⟩
      simp only [resolvedProjectOf, hpt]
      exact (truthyOpt_eq_some hproj).1
  | some pid =>
    cases hf : findTask db pid with
    | none =>
      have hred : createTask db agent id histId time p =
          ⟨db, errRes ("Error: Parent task '" ++ pid ++ "' not found.")⟩ := by
        simp only [createTask, hpt, hf]
      rw [hred]
      exact Or.inl rfl
    | some parent =>
      by_cases hpp : parent.parent_task_id.isSome = true
      · have hred : createTask db agent id histId time p =
            ⟨db, errRes "Error: Cannot nest subtasks more than one level deep."⟩ := by
          simp only [createTask, hpt, hf, hpp, if_true]
        rw [hred]
        exact Or.inl rfl
      · have hpp' : parent.parent_task_id.isSome = false := by simpa using hpp
        have hred : createTask db agent id histId time p =
            createTaskInsert db agent id histId time p (some parent.project) := by
          simp only [createTask, hpt, hf, hpp', Bool.false_eq_true, if_false]
        rw [hred]
        rcases createTaskInsert_tasks_cases db agent id histId time p
            (some parent.project) with h | ⟨proj, st, hproj, hidf, hstd, heq⟩
        · exact Or.inl h
        · have hpe : parent.project = proj := by
            have h1 := (truthyOpt_eq_some hproj).1
            injection h1
          refine Or.inr ⟨proj, st, ?_, hidf, hstd,
            Or.inr ⟨pid, parent, rfl, hf, Option.not_isSome_iff_eq_none.mp hpp,
              hpe⟩, by rw [heq, hpt]⟩
          simp only [resolvedProjectOf, hpt, hf, hpe]

/-- The facts the parent-field validation establishes whenever the update
proceeds past it. -/
def parentOK (db : DB) (u : UpdateParams) : Prop :=
  u.parent_task_id = none ∨ u.parent_task_id = some none ∨
  ∃ pid, u.parent_task_id = some (some pid) ∧ pid ≠ u.task_id ∧
    (∃ parent, findTask db pid = some parent ∧ parent.parent_task_id = none) ∧
    childCount db u.task_id = 0

/-- The fact the transition validation establishes: an actual change to a
status with a transition table entry only proceeds to an allowed target. -/
def statusOK (task : TaskRec) (status' : Option String) : Prop :=
  ∀ s, status' = some s → s ≠ "" → s ≠ task.status →
    ∀ allowed, getTransitions task.project task.status = some allowed → s ∈ allowed

theorem updateTaskTx_tasks (db : DB) (agent commentId histId : String) (time : Nat)
    (u : UpdateParams) (task : TaskRec) (status' : Option String) :
    (updateTaskTx db agent commentId histId time u task status').db.tasks = db.tasks ∨
    (updateTaskTx db agent commentId histId time u task status').db.tasks =
      db.tasks.map (fun t => if t.id == u.task_id then applyUpdates u status' time t else t) := by
  unfold updateTaskTx
  dsimp only
  (repeat' split) <;> first | (left; rfl) | (right; rfl)

theorem updateTaskApply_tasks (db : DB) (agent commentId histId : String) (time : Nat)
    (u : UpdateParams) (task : TaskRec) (status' : Option String) :
    (updateTaskApply db agent commentId histId time u task status').db.tasks = db.tasks ∨
    (updateTaskApply db agent commentId histId time u task status').db.tasks =
      db.tasks.map (fun t => if t.id == u.task_id then applyUpdates u status' time t else t) := by
  unfold updateTaskApply
  split
  · left
    rfl
  · exact updateTaskTx_tasks db agent commentId histId time u task status'

theorem updateTaskParent_tasks (db : DB) (agent commentId histId : String) (time : Nat)
    (u : UpdateParams) (task : TaskRec) (status' : Option String) :
    (updateTaskParent db agent commentId histId time u task status').db.tasks = db.tasks ∨
    ((updateTaskParent db agent commentId histId time u task status').db.tasks =
      db.tasks.map (fun t => if t.id == u.task_id then applyUpdates u status' time t else t) ∧
     parentOK db u) := by
  unfold updateTaskParent
  rcases hp : u.parent_task_id with _ | (_ | pid) <;> simp only [hp]
  · rcases updateTaskApply_tasks db agent commentId histId time u task status' with h | h
    · exact Or.inl h
    · exact Or.inr ⟨h, Or.inl hp⟩
  · rcases updateTaskApply_tasks db agent commentId histId time u task status' with h | h
    · exact Or.inl h
    · exact Or.inr ⟨h, Or.inr (Or.inl hp)⟩
  · split
    · left
      rfl
    · rename_i hpid
      cases hf : findTask db pid with
      | none =>
        simp only [hf]
        left
        first | rfl | trivial
      | some parent =>
        simp only [hf]
        split
        · left
          rfl
        · split
          · left
            rfl
          · rename_i hpp hcc
            rcases updateTaskApply_tasks db agent commentId histId time u task status' with
              h | h
            · exact Or.inl h
            · refine Or.inr ⟨h, Or.inr (Or.inr ⟨pid, hp, hpid, ⟨parent, hf,
                Option.not_isSome_iff_eq_none.mp hpp⟩, ?_⟩)⟩
              omega

theorem updateTaskGuard_tasks (db : DB) (agent commentId histId : String) (time : Nat)
    (u : UpdateParams) (task : TaskRec) (status' : Option String) :
    (updateTaskGuard db agent commentId histId time u task status').db.tasks = db.tasks ∨
    ((updateTaskGuard db agent commentId histId time u task status').db.tasks =
      db.tasks.map (fun t => if t.id == u.task_id then applyUpdates u status' time t else t) ∧
     parentOK db u) := by
  unfold updateTaskGuard
  split
  · left
    rfl
  · exact updateTaskParent_tasks db agent commentId histId time u task status'

theorem updateTaskValidate_tasks (db : DB) (agent commentId histId : String) (time : Nat)
    (u : UpdateParams) (task : TaskRec) (status' : Option String) :
    (updateTaskValidate db agent commentId histId time u task status').db.tasks = db.tasks ∨
    ((updateTaskValidate db agent commentId histId time u task status').db.tasks =
      db.tasks.map (fun t => if t.id == u.task_id then applyUpdates u status' time t else t) ∧
     parentOK db u ∧ statusOK task status') := by
  unfold updateTaskValidate
  rcases status' with _ | st
  · rcases updateTaskGuard_tasks db agent commentId histId time u task none with h | ⟨h, hp⟩
    · exact Or.inl h
    · exact Or.inr ⟨h, hp, fun s hs => by cases hs⟩
  · dsimp only
    split
    · rename_i hcond
      cases htr : getTransitions task.project task.status with
      | none =>
        simp only [htr]
        rcases updateTaskGuard_tasks db agent commentId histId time u task (some st) with
          h | ⟨h, hp⟩
        · exact Or.inl h
        · refine Or.inr ⟨h, hp, ?_⟩
          intro s hs _ _ allowed hallowed
          rw [htr] at hallowed
          cases hallowed
      | some allowed =>
        simp only [htr]
        split
        · left
          rfl
        · rename_i hmem
          rcases updateTaskGuard_tasks db agent commentId histId time u task (some st) with
            h | ⟨h, hp⟩
          · exact Or.inl h
          · refine Or.inr ⟨h, hp, ?_⟩
            intro s hs _ _ allowed' hallowed'
            cases hs
            rw [htr] at hallowed'
            cases hallowed'
            simpa using hmem
    · rename_i hcond
      rcases updateTaskGuard_tasks db agent commentId histId time u task (some st) with
        h | ⟨h, hp⟩
      · exact Or.inl h
      · refine Or.inr ⟨h, hp, ?_⟩
        intro s hs hne hneq allowed _
        cases hs
        exact absurd ⟨hne, hneq⟩ hcond

theorem updateTask_tasks_cases (db : DB) (agent commentId histId : String) (time : Nat)
    (u : UpdateParams) :
    (updateTask db agent commentId histId time u).db.tasks = db.tasks ∨
    ∃ task status',
      findTask db u.task_id = some task ∧
      (status' = none ∨ status' = u.status) ∧
      (updateTask db agent commentId histId time u).db.tasks =
        db.tasks.map (fun t => if t.id == u.task_id then applyUpdates u status' time t else t) ∧
      parentOK db u ∧ statusOK task status' := by
  unfold updateTask
  cases hf : findTask db u.task_id with
  | none =>
    simp only [hf]
    left
    first | rfl | trivial
  | some task =>
    simp only [hf]
    have core : ∀ st' : Option String,
        (st' = none ∨ st' = u.status) →
        ((updateTaskValidate db agent commentId histId time u task st').db.tasks = db.tasks ∨
         ∃ task2 status',
           some task = some task2 ∧
           (status' = none ∨ status' = u.status) ∧
           (updateTaskValidate db agent commentId histId time u task st').db.tasks =
             db.tasks.map
               (fun t => if t.id == u.task_id then applyUpdates u status' time t else t) ∧
           parentOK db u ∧ statusOK task2 status') := by
      intro st' hst'
      rcases updateTaskValidate_tasks db agent commentId histId time u task st' with
        h | ⟨h, hp, hs⟩
      · exact Or.inl h
      · exact Or.inr ⟨task, st', rfl, hst', h, hp, hs⟩
    have hdisj : ∀ (so : Option String),
        ((match so with
          | some s => if s ≠ "" ∧ s = task.status then none else some s
          | none => none) : Option String) = none ∨
        ((match so with
          | some s => if s ≠ "" ∧ s = task.status then none else some s
          | none => none) : Option String) = so := by
      intro so
      rcases so with _ | s
      · exact Or.inl rfl
      · dsimp only
        split
        · exact Or.inl rfl
        · exact Or.inr rfl
    cases he : u.expected_status with
    | none =>
      simp only [he]
      rcases core _ (hdisj u.status) with h | ⟨t2, st', ht2, hst', h, hp, hs⟩
      · exact Or.inl h
      · cases ht2
        exact Or.inr ⟨task, st', rfl, hst', h, hp, hs⟩
    | some e =>
      simp only [he]
      split
      · left
        rfl
      · rcases core _ (hdisj u.status) with h | ⟨t2, st', ht2, hst', h, hp, hs⟩
        · exact Or.inl h
        · cases ht2
          exact Or.inr ⟨task, st', rfl, hst', h, hp, hs⟩

theorem deleteTask_tasks_cases (db : DB) (tid : String) (confirm : Bool) :
    (deleteTask db tid confirm).db.tasks = db.tasks ∨
    (deleteTask db tid confirm).db.tasks =
      (db.tasks.filter (fun t => t.parent_task_id != some tid)).filter
        (fun t => t.id != tid) := by
  unfold deleteTask
  dsimp only
  (repeat' split)
  all_goals
    first
      | (left; rfl)
      | (right
         rw [cascadeFold_tasks])

theorem nodupIds_filter {l : List TaskRec} (p : TaskRec → Bool)
    (h : nodupIds l) : nodupIds (l.filter p) :=
  ((List.filter_sublist l).map TaskRec.id).nodup h

theorem applyUpdates_parent (u : UpdateParams) (status' : Option String) (time : Nat)
    (t : TaskRec) :
    (applyUpdates u status' time t).parent_task_id =
      u.parent_task_id.getD t.parent_task_id := rfl

theorem applyUpdates_status (u : UpdateParams) (status' : Option String) (time : Nat)
    (t : TaskRec) :
    (applyUpdates u status' time t).status = status'.getD t.status := rfl

theorem applyUpdates_project (u : UpdateParams) (status' : Option String) (time : Nat)
    (t : TaskRec) : (applyUpdates u status' time t).project = t.project := rfl

theorem update_row_id (u : UpdateParams) (status' : Option String) (time : Nat)
    (t : TaskRec) :
    ((if t.id == u.task_id then applyUpdates u status' time t else t) : TaskRec).id = t.id := by
  by_cases h : (t.id == u.task_id) = true <;> simp [h, applyUpdates_id]

/-- The parent-hierarchy invariant survives a validated `UPDATE`. -/
theorem parentFlat_update (db : DB) (u : UpdateParams) (status' : Option String)
    (time : Nat) (hnd : nodupIds db.tasks) (hflat : parentFlat db.tasks)
    (hpOK : parentOK db u) :
    parentFlat (db.tasks.map
      (fun t => if t.id == u.task_id then applyUpdates u status' time t else t)) := by
  rcases hpOK with hp0 | hp0 | ⟨pid0, hp0, hne0, ⟨parent, hfind, hparNone⟩, hcc⟩
  · exact parentFlat_map (update_row_id u status' time)
      (fun t => by
        by_cases h : (t.id == u.task_id) = true <;>
          simp [h, applyUpdates_parent, hp0]) hflat
  · intro t' ht' pid hp'
    obtain ⟨t, ht, rfl⟩ := List.mem_map.mp ht'
    by_cases hm : (t.id == u.task_id) = true
    · rw [if_pos hm, applyUpdates_parent, hp0] at hp'
      cases hp'
    · rw [if_neg hm] at hp' ⊢
      obtain ⟨hne, ⟨pt0, hpt0, hpt0id⟩, hall⟩ := hflat t ht pid hp'
      refine ⟨hne, ⟨_, List.mem_map_of_mem _ hpt0,
        (update_row_id u status' time pt0).trans hpt0id⟩, ?_⟩
      intro pt' hpt'' hid'
      obtain ⟨pt, hptm, rfl⟩ := List.mem_map.mp hpt''
      by_cases h2 : (pt.id == u.task_id) = true
      · rw [if_pos h2, applyUpdates_parent, hp0]
        rfl
      · rw [if_neg h2] at hid' ⊢
        exact hall pt hptm hid'
  · intro t' ht' pid hp'
    obtain ⟨t, ht, rfl⟩ := List.mem_map.mp ht'
    by_cases hm : (t.id == u.task_id) = true
    · rw [if_pos hm, applyUpdates_parent, hp0] at hp'
      cases hp'
      have htid : t.id = u.task_id := by simpa using hm
      obtain ⟨hparmem, hparid⟩ := findTask_mem_id hfind
      refine ⟨?_, ⟨_, List.mem_map_of_mem _ hparmem,
        (update_row_id u status' time parent).trans hparid⟩, ?_⟩
      · rw [if_pos hm, applyUpdates_id, htid]
        exact hne0
      · intro pt' hpt'' hid'
        obtain ⟨pt, hptm, rfl⟩ := List.mem_map.mp hpt''
        rw [update_row_id] at hid'
        by_cases h2 : (pt.id == u.task_id) = true
        · exact absurd (hid'.symm.trans (by simpa using h2)) hne0
        · rw [if_neg h2]
          have : pt = parent := nodup_task_eq hnd hptm hparmem (hid'.trans hparid.symm)
          rw [this]
          exact hparNone
    · rw [if_neg hm] at hp' ⊢
      obtain ⟨hne, ⟨pt0, hpt0, hpt0id⟩, hall⟩ := hflat t ht pid hp'
      refine ⟨hne, ⟨_, List.mem_map_of_mem _ hpt0,
        (update_row_id u status' time pt0).trans hpt0id⟩, ?_⟩
      intro pt' hpt'' hid'
      obtain ⟨pt, hptm, rfl⟩ := List.mem_map.mp hpt''
      rw [update_row_id] at hid'
      by_cases h2 : (pt.id == u.task_id) = true
      · have hpid : pid = u.task_id := hid' ▸ (by simpa using h2 : pt.id = u.task_id)
        exact absurd (hpid ▸ hp') (childCount_zero hcc t ht)
      · rw [if_neg h2]
        exact hall pt hptm hid'

/-- The pipeline-membership invariant survives a validated `UPDATE` whose
status argument, when present, is nonempty. -/
theorem statusInv_update (db : DB) (u : UpdateParams) (status' : Option String)
    (time : Nat) (task : TaskRec) (hfind : findTask db u.task_id = some task)
    (hnd : nodupIds db.tasks) (hinv : statusInv db.tasks)
    (hsOK : statusOK task status') (hne'' : ∀ s, status' = some s → s ≠ "") :
    statusInv (db.tasks.map
      (fun t => if t.id == u.task_id then applyUpdates u status' time t else t)) := by
  intro t' ht'
  obtain ⟨t, ht, rfl⟩ := List.mem_map.mp ht'
  by_cases hm : (t.id == u.task_id) = true
  · rw [if_pos hm, applyUpdates_status, applyUpdates_project]
    obtain ⟨htaskmem, htaskid⟩ := findTask_mem_id hfind
    have hteq : t = task :=
      nodup_task_eq hnd ht htaskmem ((by simpa using hm : t.id = u.task_id).trans htaskid.symm)
    cases hst : status' with
    | none =>
      simpa using hinv t ht
    | some s =>
      simp only [Option.getD_some]
      by_cases hsame : s = task.status
      · rw [hteq, hsame]
        exact hinv task htaskmem
      · have htin : task.status ∈ pipelineStatuses task.project := hinv task htaskmem
        obtain ⟨allowed, hget, hsub⟩ := getTransitions_total task.project task.status htin
        rw [hteq]
        exact hsub s (hsOK s hst (hne'' s hst) hsame allowed hget)
  · rw [if_neg hm]
    exact hinv t ht

theorem nodupIds_append_single {l : List TaskRec} {t : TaskRec}
    (h : nodupIds l) (hf : ∀ t' ∈ l, t'.id ≠ t.id) : nodupIds (l ++ [t]) := by
  unfold nodupIds at *
  rw [List.map_append]
  refine List.Nodup.append h (List.nodup_singleton _) ?_
  intro x hx hy
  obtain ⟨t', ht', rfl⟩ := List.mem_map.mp hx
  simp only [List.map_cons, List.map_nil, List.mem_singleton] at hy
  exact hf t' ht' hy

theorem parentFlat_append_single {l : List TaskRec} {t : TaskRec}
    (h : parentFlat l) (hf : ∀ t' ∈ l, t'.id ≠ t.id)
    (hpar : ∀ pid, t.parent_task_id = some pid →
      ∃ parent ∈ l, parent.id = pid ∧ parent.parent_task_id = none)
    (hnd : nodupIds l) : parentFlat (l ++ [t]) := by
  intro t' ht' pid hp
  rcases List.mem_append.mp ht' with htl | hts
  · obtain ⟨hne, ⟨pt, hptl, hptid⟩, hall⟩ := h t' htl pid hp
    refine ⟨hne, ⟨pt, List.mem_append_left _ hptl, hptid⟩, ?_⟩
    intro pt' hpt' hid'
    rcases List.mem_append.mp hpt' with h1 | h2
    · exact hall pt' h1 hid'
    · obtain rfl := List.mem_singleton.mp h2
      exact absurd (hptid.trans hid'.symm) (hf pt hptl)
  · obtain rfl := List.mem_singleton.mp hts
    obtain ⟨parent, hpl, hpid, hpnone⟩ := hpar pid hp
    refine ⟨fun hc => hf parent hpl (hpid.trans hc), 
      ⟨parent, List.mem_append_left _ hpl, hpid⟩, ?_⟩
    intro pt' hpt' hid'
    rcases List.mem_append.mp hpt' with h1 | h2
    · have : pt' = parent := nodup_task_eq hnd h1 hpl (hid'.trans hpid.symm)
      rw [this]
      exact hpnone
    · obtain rfl := List.mem_singleton.mp h2
      exact absurd (hpid.trans hid'.symm) (hf parent hpl)

/-- The parent-hierarchy invariant survives the cascading delete's
row selection: children of the deleted task go with it. -/
theorem parentFlat_deleteFilter {l : List TaskRec} (tid : String) (h : parentFlat l) :
    parentFlat ((l.filter (fun t => t.parent_task_id != some tid)).filter
      (fun t => t.id != tid)) := by
  intro t ht pid hp
  have ht1 : t ∈ l.filter (fun t => t.parent_task_id != some tid) :=
    (List.mem_filter.mp ht).1
  have htl : t ∈ l := (List.mem_filter.mp ht1).1
  have htp : (t.parent_task_id != some tid) = true := (List.mem_filter.mp ht1).2
  obtain ⟨hne, ⟨pt, hptl, hptid⟩, hall⟩ := h t htl pid hp
  have hpidne : pid ≠ tid := by
    intro hc
    rw [hp, hc] at htp
    simp at htp
  have hptnone : pt.parent_task_id = none := hall pt hptl hptid
  refine ⟨hne, ⟨pt, ?_, hptid⟩, ?_⟩
  · refine List.mem_filter.mpr ⟨List.mem_filter.mpr ⟨hptl, by simp [hptnone]⟩, ?_⟩
    simp [hptid, hpidne]
  · intro pt' hpt' hid'
    exact hall pt' (List.mem_filter.mp (List.mem_filter.mp hpt').1).1 hid'

/-- Cluster invariant: every reachable store has pairwise-distinct task
ids and a flat (one-level, live, acyclic-at-depth-one) parent hierarchy. -/
theorem reachable_nodup_flat (db : DB) (h : Reachable db) :
    nodupIds db.tasks ∧ parentFlat db.tasks := by
  induction h with
  | empty =>
    constructor
    · simp [nodupIds, emptyDB]
    · intro t ht
      simp [emptyDB] at ht
  | create db agent id histId time p _ ih =>
    obtain ⟨ihn, ihf⟩ := ih
    rcases createTask_tasks_cases db agent id histId time p with
      heq | ⟨proj, st, hproj, hidf, hstd, hparc, heq⟩
    · rw [heq]
      exact ⟨ihn, ihf⟩
    · rw [heq]
      have hfresh := taskIdUsed_false hidf
      constructor
      · exact nodupIds_append_single ihn hfresh
      · refine parentFlat_append_single ihf hfresh ?_ ihn
        intro pid hp
        rcases hparc with hnone | ⟨pid0, parent, hpeq, hfindp, hpnone, hprojp⟩
        · rw [hnone] at hp
          cases hp
        · rw [hpeq] at hp
          cases hp
          obtain ⟨hpm, hpidm⟩ := findTask_mem_id hfindp
          exact ⟨parent, hpm, hpidm, hpnone⟩
  | update db agent commentId histId time u _ ih =>
    obtain ⟨ihn, ihf⟩ := ih
    rcases updateTask_tasks_cases db agent commentId histId time u with
      heq | ⟨task, status', hfind, hst', heq, hpOK, hsOK⟩
    · rw [heq]
      exact ⟨ihn, ihf⟩
    · rw [heq]
      exact ⟨nodupIds_map (update_row_id u status' time) ihn,
        parentFlat_update db u status' time ihn ihf hpOK⟩
  | delete db tid confirm _ ih =>
    obtain ⟨ihn, ihf⟩ := ih
    rcases deleteTask_tasks_cases db tid confirm with heq | heq
    · rw [heq]
      exact ⟨ihn, ihf⟩
    · rw [heq]
      exact ⟨nodupIds_filter _ (nodupIds_filter _ ihn), parentFlat_deleteFilter tid ihf⟩
  | addDep db agent a b _ ih =>
    rw [addDependency_tasks]
    exact ih
  | rmDep db a b _ ih =>
    rw [removeDependency_tasks]
    exact ih
  | comment db agent cid time tid content _ ih =>
    rw [addComment_tasks]
    exact ih
  | review db agent rid time tid verdict content categories _ ih =>
    rw [submitReview_tasks]
    exact ih
  | setCrit db time tid criteria _ ih =>
    obtain ⟨ihn, ihf⟩ := ih
    rcases setCriteria_tasks_cases db time tid criteria with heq | ⟨g, heq, hg⟩
    · rw [heq]
      exact ⟨ihn, ihf⟩
    · rw [heq]
      exact ⟨nodupIds_map (fun t => (hg t).1) ihn,
        parentFlat_map (fun t => (hg t).1) (fun t => (hg t).2.1) ihf⟩
  | checkCrit db agent time tid critId checked _ ih =>
    obtain ⟨ihn, ihf⟩ := ih
    rcases checkCriterion_tasks_cases db agent time tid critId checked with heq | ⟨g, heq, hg⟩
    · rw [heq]
      exact ⟨ihn, ihf⟩
    · rw [heq]
      exact ⟨nodupIds_map (fun t => (hg t).1) ihn,
        parentFlat_map (fun t => (hg t).1) (fun t => (hg t).2.1) ihf⟩

/-- Witness for C3 (amended) at a concrete store: `backlog → done` is
rejected verbosely under the forge pipeline, and a same-status call is a
complete no-op. -/
theorem C3_transition_validation_witness :
    ((updateTask w5db "b" "c1" "h2" 1 c3u).res.isError = true ∧
     (updateTask w5db "b" "c1" "h2" 1 c3u).db = w5db ∧
     strContains (updateTask w5db "b" "c1" "h2" 1 c3u).res.text w5task.status ∧
     strContains (updateTask w5db "b" "c1" "h2" 1 c3u).res.text "done" ∧
     strContains (updateTask w5db "b" "c1" "h2" 1 c3u).res.text
       (pipelineName w5task.project) ∧
     (∀ a ∈ ["specced"], strContains (updateTask w5db "b" "c1" "h2" 1 c3u).res.text a)) ∧
    ((updateTask w5db "b" "c1" "h2" 1
        { baseUpdate "t1" with status := some w5task.status }).db = w5db ∧
     (updateTask w5db "b" "c1" "h2" 1
        { baseUpdate "t1" with status := some w5task.status }).res.isError = false) :=
  ⟨C3_transition_validation.1 w5db "b" "c1" "h2" 1 c3u w5task "done" ["specced"]
     (by decide) (Or.inl rfl) rfl (by decide) (by decide) (by decide) (by decide),
   C3_transition_validation.2 w5db "b" "c1" "h2" 1 "t1" w5task (by decide) (by decide)⟩

-- ── C2: the pipeline-membership invariant ────────────────────────────

/-- Reachability by calls that keep to the documented status vocabulary:
every `createTask` that supplies a (truthy) status picks one from the
pipeline of the project it resolves to, and no `updateTask` passes the
empty string as a status.  (Plain `Reachable` drops both side conditions.) -/
inductive ReachableS : DB → Prop
  | empty : ReachableS emptyDB
  | create (db : DB) (agent id histId : String) (time : Nat) (p : CreateParams) :
      ReachableS db →
      (∀ s proj, truthyOpt p.status = some s → resolvedProjectOf db p = some proj →
        s ∈ pipelineStatuses proj) →
      ReachableS (createTask db agent id histId time p).db
  | update (db : DB) (agent commentId histId : String) (time : Nat) (u : UpdateParams) :
      ReachableS db → u.status ≠ some "" →
      ReachableS (updateTask db agent commentId histId time u).db
  | delete (db : DB) (tid : String) (confirm : Bool) :
      ReachableS db → ReachableS (deleteTask db tid confirm).db
  | addDep (db : DB) (agent a b : String) :
      ReachableS db → ReachableS (addDependency db agent a b).db
  | rmDep (db : DB) (a b : String) :
      ReachableS db → ReachableS (removeDependency db a b).db
  | comment (db : DB) (agent cid : String) (time : Nat) (tid content : String) :
      ReachableS db → ReachableS (addComment db agent cid time tid content).db
  | review (db : DB) (agent rid : String) (time : Nat) (tid verdict content : String)
      (categories : List String) :
      ReachableS db → ReachableS (submitReview db agent rid time tid verdict content categories).db
  | setCrit (db : DB) (time : Nat) (tid : String) (criteria : List String) :
      ReachableS db → ReachableS (setCriteria db time tid criteria).db
  | checkCrit (db : DB) (agent : String) (time : Nat) (tid critId : String) (checked : Bool) :
      ReachableS db → ReachableS (checkCriterion db agent time tid critId checked).db

theorem reachableS_to_reachable {db : DB} (h : ReachableS db) : Reachable db := by
  induction h with
  | empty => exact Reachable.empty
  | create db agent id histId time p _ _ ih =>
    exact Reachable.create db agent id histId time p ih
  | update db agent commentId histId time u _ _ ih =>
    exact Reachable.update db agent commentId histId time u ih
  | delete db tid confirm _ ih => exact Reachable.delete db tid confirm ih
  | addDep db agent a b _ ih => exact Reachable.addDep db agent a b ih
  | rmDep db a b _ ih => exact Reachable.rmDep db a b ih
  | comment db agent cid time tid content _ ih =>
    exact Reachable.comment db agent cid time tid content ih
  | review db agent rid time tid verdict content categories _ ih =>
    exact Reachable.review db agent rid time tid verdict content categories ih
  | setCrit db time tid criteria _ ih => exact Reachable.setCrit db time tid criteria ih
  | checkCrit db agent time tid critId checked _ ih =>
    exact Reachable.checkCrit db agent time tid critId checked ih

theorem reachableS_statusInv (db : DB) (h : ReachableS db) : statusInv db.tasks := by
  induction h with
  | empty =>
    intro t ht
    simp [emptyDB] at ht
  | create db agent id histId time p hprev hside ih =>
    rcases createTask_tasks_cases db agent id histId time p with
      heq | ⟨proj, st, hproj, hidf, hstd, hparc, heq⟩
    · rw [heq]
      exact ih
    · rw [heq]
      intro t' ht'
      rcases List.mem_append.mp ht' with htl | hts
      · exact ih t' htl
      · obtain rfl := List.mem_singleton.mp hts
        show st ∈ pipelineStatuses proj
        rcases hstd with hsup | hdef
        · exact hside st proj hsup hproj
        · rw [hdef]
          exact getDefaultStatus_mem proj
  | update db agent commentId histId time u hprev hne ih =>
    rcases updateTask_tasks_cases db agent commentId histId time u with
      heq | ⟨task, status', hfind, hst', heq, hpOK, hsOK⟩
    · rw [heq]
      exact ih
    · rw [heq]
      have hnd := (reachable_nodup_flat db (reachableS_to_reachable hprev)).1
      refine statusInv_update db u status' time task hfind hnd ih hsOK ?_
      intro s hs hse
      rcases hst' with h0 | h0
      · rw [h0] at hs
        cases hs
      · apply hne
        rw [← h0, hs, hse]
  | delete db tid confirm hprev ih =>
    exact statusInv_subset (deleteTask_tasks_subset db tid confirm) ih
  | addDep db agent a b hprev ih =>
    rw [addDependency_tasks]
    exact ih
  | rmDep db a b hprev ih =>
    rw [removeDependency_tasks]
    exact ih
  | comment db agent cid time tid content hprev ih =>
    rw [addComment_tasks]
    exact ih
  | review db agent rid time tid verdict content categories hprev ih =>
    rw [submitReview_tasks]
    exact ih
  | setCrit db time tid criteria hprev ih =>
    rcases setCriteria_tasks_cases db time tid criteria with heq | ⟨g, heq, hg⟩
    · rw [heq]
      exact ih
    · rw [heq]
      exact statusInv_map (fun t _ => ⟨(hg t).2.2.1, (hg t).2.2.2⟩) ih
  | checkCrit db agent time tid critId checked hprev ih =>
    rcases checkCriterion_tasks_cases db agent time tid critId checked with heq | ⟨g, heq, hg⟩
    · rw [heq]
      exact ih
    · rw [heq]
      exact statusInv_map (fun t _ => ⟨(hg t).2.2.1, (hg t).2.2.2⟩) ih

def c2p : CreateParams := ⟨some "ops/x", "T", "", 5, some "backlog", none, none, none⟩

def c2db : DB := (createTask emptyDB "a" "t1" "h1" 0 c2p).db

/-- C2 counterexample: `createTask` validates a supplied status against
`VALID_STATUSES` only (the union of both pipelines), never against the
pipeline of the resolved project, so one call reaches a store holding an
`ops/` task whose status `backlog` is no member of the ops pipeline's
status set. -/
theorem C2_counterexample :
    Reachable c2db ∧
    (findTask c2db "t1").map TaskRec.project = some "ops/x" ∧
    (findTask c2db "t1").map TaskRec.status = some "backlog" ∧
    pipelineStatuses "ops/x" = OPS_STATUSES ∧
    "backlog" ∉ OPS_STATUSES ∧
    "backlog" ∈ VALID_STATUSES :=
  ⟨Reachable.create emptyDB "a" "t1" "h1" 0 c2p Reachable.empty,
   by decide, by decide, by decide, by decide, by decide⟩

/-- C2 (amended): in every store reachable by calls whose `createTask`
status arguments (when supplied and truthy) belong to the pipeline of the
resolved project and whose `updateTask` calls never pass the empty-string
status, every task's status is a member of the status set of the pipeline
selected by the task's project.  (Unrestricted reachability breaks the
invariant: `createTask` checks a supplied status against the union of the
two status sets only, and `updateTask` writes an empty-string status with
no validation at all.) -/
theorem C2_status_pipeline_membership (db : DB) (h : ReachableS db) :
    ∀ t ∈ db.tasks, t.status ∈ pipelineStatuses t.project :=
  reachableS_statusInv db h

def c2wp : CreateParams := ⟨some "ops/x", "T", "", 5, none, none, none, none⟩

/-- The row a defaulted `ops/` creation on the empty store writes. -/
def c2wtask : TaskRec :=
  ⟨"t2", "ops/x", "T", "", "todo", none, 5, "a", 0, 0, none, none, none, none, 0,
   none, none, StoredJson.absent, none⟩

/-- Witness for C2 (amended): the task written by a defaulted `ops/`
creation sits inside its pipeline's status set. -/
theorem C2_status_pipeline_membership_witness :
    c2wtask.status ∈ pipelineStatuses c2wtask.project :=
  C2_status_pipeline_membership _
    (ReachableS.create emptyDB "a" "t2" "h2" 0 c2wp ReachableS.empty
      (fun s proj hs _ => by simp [c2wp, truthyOpt] at hs))
    c2wtask (by decide)

-- ── C6: one-level subtask nesting ────────────────────────────────────

/-- C6: in every reachable store a task's parent reference points to a
different task, and every row carrying that id is itself parentless
(nesting depth at most one); `createTask` rejects, with a typed error and
no write, a parent reference that is missing or that itself has a parent;
and `updateTask` (on a call with no status and no lock, isolating the
parent check) rejects, with a typed error and no write, re-parenting a
task onto itself, onto a missing task, onto a task that itself has a
parent, and re-parenting of a task that has children. -/
theorem C6_nesting_depth :
    (∀ db : DB, Reachable db → ∀ t ∈ db.tasks, ∀ pid, t.parent_task_id = some pid →
      pid ≠ t.id ∧ ∀ pt ∈ db.tasks, pt.id = pid → pt.parent_task_id = none) ∧
    (∀ (db : DB) (agent id histId : String) (time : Nat) (p : CreateParams) (pid : String),
      truthyOpt p.parent_task_id = some pid →
      (findTask db pid = none ∨
        ∃ parent, findTask db pid = some parent ∧ parent.parent_task_id.isSome = true) →
      (createTask db agent id histId time p).db = db ∧
      (createTask db agent id histId time p).res.isError = true) ∧
    (∀ (db : DB) (agent commentId histId : String) (time : Nat) (u : UpdateParams)
      (task : TaskRec) (pid : String),
      findTask db u.task_id = some task →
      u.expected_status = none → u.status = none →
      u.parent_task_id = some (some pid) →
      (pid = u.task_id ∨ findTask db pid = none ∨
        (∃ parent, findTask db pid = some parent ∧
          (parent.parent_task_id.isSome = true ∨ 0 < childCount db u.task_id))) →
      (updateTask db agent commentId histId time u).db = db ∧
      (updateTask db agent commentId histId time u).res.isError = true) := by
  refine ⟨?_, ?_, ?_⟩
  · intro db h t ht pid hp
    obtain ⟨hne, _, hall⟩ := (reachable_nodup_flat db h).2 t ht pid hp
    exact ⟨hne, hall⟩
  · intro db agent id histId time p pid hp hbad
    simp only [createTask, hp]
    rcases hbad with hnone | ⟨parent, hfp, hnest⟩
    · simp only [hnone]
      exact ⟨by first | rfl | trivial, by first | rfl | trivial⟩
    · simp only [hfp]
      rw [if_pos hnest]
      exact ⟨rfl, rfl⟩
  · intro db agent commentId histId time u task pid hfind hexp hstat hpar hbad
    simp only [updateTask, hfind, hexp, hstat, updateTaskValidate, updateTaskGuard,
      updateTaskParent, hpar]
    rw [if_neg (by simp : ¬((none : Option String) = some "done" ∧
      0 < nonDoneChildCount db u.task_id))]
    by_cases hpe : pid = u.task_id
    · rw [if_pos hpe]
      exact ⟨rfl, rfl⟩
    · rw [if_neg hpe]
      rcases hbad with hbad | hbad | ⟨parent, hfp, hor⟩
      · exact absurd hbad hpe
      · simp only [hbad]
        exact ⟨by first | rfl | trivial, by first | rfl | trivial⟩
      · simp only [hfp]
        by_cases hnest : parent.parent_task_id.isSome = true
        · rw [if_pos hnest]
          exact ⟨rfl, rfl⟩
        · rw [if_neg hnest]
          rcases hor with hor | hor
          · exact absurd hor hnest
          · rw [if_pos hor]
            exact ⟨rfl, rfl⟩

def w6parent : TaskRec :=
  ⟨"p1", "proj", "P", "", "backlog", none, 5, "a", 0, 0, none, none, none, none, 0,
   none, none, StoredJson.absent, none⟩

def w6child : TaskRec :=
  ⟨"c1", "proj", "C", "", "backlog", none, 5, "a", 0, 0, some "p1", none, none, none, 0,
   none, none, StoredJson.absent, none⟩

def w6db : DB := ⟨[w6parent, w6child], [], [], []⟩

def w6p : CreateParams := ⟨some "proj", "X", "", 5, none, none, some "c1", none⟩

def w6u : UpdateParams := { baseUpdate "p1" with parent_task_id := some (some "p1") }

/-- Witness for C6: creating a subtask under an existing subtask is
rejected without a write, and re-parenting a task onto itself is rejected
without a write. -/
theorem C6_nesting_depth_witness :
    ((createTask w6db "a" "t9" "h9" 3 w6p).db = w6db ∧
     (createTask w6db "a" "t9" "h9" 3 w6p).res.isError = true) ∧
    ((updateTask w6db "a" "c9" "h9" 3 w6u).db = w6db ∧
     (updateTask w6db "a" "c9" "h9" 3 w6u).res.isError = true) :=
  ⟨C6_nesting_depth.2.1 w6db "a" "t9" "h9" 3 w6p "c1" (by decide)
     (Or.inr ⟨w6child, by decide, by decide⟩),
   C6_nesting_depth.2.2 w6db "a" "c9" "h9" 3 w6u w6parent "p1" (by decide) rfl rfl rfl
     (Or.inl rfl)⟩

-- ── searchTasks (handlers.js lines 259-290) ──────────────────────────

/-- ASCII lower-casing: the folding SQLite's `LIKE` applies (ASCII only). -/
def lowerAscii (c : Char) : Char :=
  if 'A' ≤ c ∧ c ≤ 'Z' then Char.ofNat (c.toNat + 32) else c

/-- SQLite `LIKE` with `%` and `_` wildcards and ASCII-case-insensitive
literal characters, on a fuel budget (each step consumes one pattern or
string element, so `pattern + string + 1` always suffices). -/
def likeAux : Nat → List Char → List Char → Bool
  | 0, _, _ => false
  | _ + 1, [], [] => true
  | _ + 1, [], _ :: _ => false
  | f + 1, c :: p, [] => (c == '%') && likeAux f p []
  | f + 1, c :: p, d :: s =>
      if c = '%' then likeAux f p (d :: s) || likeAux f (c :: p) s
      else ((c == '_') || (lowerAscii c == lowerAscii d)) && likeAux f p s

def likeMatch (pat s : String) : Bool :=
  likeAux (pat.data.length + s.data.length + 1) pat.data s.data

/-- One row of the `LIKE` fallback's `WHERE` clause with pattern
`'%' + query + '%'`. -/
def rowLike (q : String) (t : TaskRec) : Bool :=
  likeMatch ("%" ++ q ++ "%") t.title || likeMatch ("%" ++ q ++ "%") t.description

/-- One output line of `searchTasks`. -/
def searchLine (t : TaskRec) : String :=
  t.id ++ " | [" ++ t.status ++ "] P" ++ toString t.priority ++ " | " ++
    t.project ++ ": " ++ t.title ++
    (match truthyOpt t.assigned_to with
     | some a => " → " ++ a
     | none => "")

/-- `searchTasks(db, agentName, {query, limit})`.  `ftsRows` is the result
of the full-text query, `none` when `tasks_fts MATCH` throws and the
handler falls back to the `LIKE` scan. -/
def searchTasks (db : DB) (ftsRows : Option (List TaskRec)) (query : String)
    (limit : Nat) : MCPResult :=
  let rows := match ftsRows with
    | some rs => rs
    | none => (db.tasks.filter (rowLike query)).take limit
  if rows.length = 0 then
    okRes ("No tasks found matching \"" ++ query ++ "\".")
  else
    okRes (joinSep "\n" (rows.map searchLine))

theorem likeAux_mono : ∀ (f' f : Nat) (p s : List Char), f ≤ f' →
    likeAux f p s = true → likeAux f' p s = true := by
  intro f'
  induction f' with
  | zero =>
    intro f p s hle h
    obtain rfl := Nat.le_zero.mp hle
    simp [likeAux] at h
  | succ g' ih =>
    intro f p s hle h
    cases f with
    | zero => simp [likeAux] at h
    | succ g =>
      have hg : g ≤ g' := Nat.succ_le_succ_iff.mp hle
      cases p with
      | nil => cases s <;> simpa [likeAux] using h
      | cons c p' =>
        cases s with
        | nil =>
          simp only [likeAux, Bool.and_eq_true] at h ⊢
          exact ⟨h.1, ih g p' [] hg h.2⟩
        | cons d s' =>
          simp only [likeAux] at h ⊢
          by_cases hc : c = '%'
          · rw [if_pos hc] at h ⊢
            rw [Bool.or_eq_true] at h ⊢
            rcases h with h2 | h2
            · exact Or.inl (ih g p' (d :: s') hg h2)
            · exact Or.inr (ih g (c :: p') s' hg h2)
          · rw [if_neg hc] at h ⊢
            rw [Bool.and_eq_true] at h ⊢
            exact ⟨h.1, ih g p' s' hg h.2⟩

theorem likeAux_pct (s : List Char) : ∀ f, s.length + 2 ≤ f →
    likeAux f ['%'] s = true := by
  induction s with
  | nil =>
    intro f hf
    obtain ⟨g, rfl⟩ : ∃ g, f = g + 2 := ⟨f - 2, by omega⟩
    simp [likeAux]
  | cons d s' ih =>
    intro f hf
    obtain ⟨g, rfl⟩ : ∃ g, f = g + 1 := ⟨f - 1, by omega⟩
    have hrec := ih g (by simp at hf ⊢; omega)
    simp [likeAux, hrec]

theorem likeAux_prepend (q : List Char) : ∀ (f : Nat) (p s : List Char),
    likeAux f p s = true → likeAux (f + 2 * q.length) (q ++ p) (q ++ s) = true := by
  induction q with
  | nil =>
    intro f p s h
    simpa using h
  | cons c q' ih =>
    intro f p s h
    have hIH := ih f p s h
    have hlen : f + 2 * (c :: q').length = (f + 2 * q'.length + 1) + 1 := by
      simp only [List.length_cons]
      omega
    rw [hlen, List.cons_append, List.cons_append]
    by_cases hc : c = '%'
    · subst hc
      have step2 : likeAux (f + 2 * q'.length + 1) ('%' :: (q' ++ p)) (q' ++ s) = true := by
        cases hq : q' ++ s with
        | nil =>
          rw [hq] at hIH
          simp [likeAux, hIH]
        | cons d S =>
          rw [hq] at hIH
          simp [likeAux, hIH]
      simp [likeAux, step2]
    · have hmono := likeAux_mono (f + 2 * q'.length + 1) (f + 2 * q'.length)
        (q' ++ p) (q' ++ s) (by omega) hIH
      simp [likeAux, hc, hmono]

theorem likeAux_pct_prefix (l : List Char) : ∀ (f : Nat) (p s : List Char),
    likeAux f p s = true → likeAux (f + l.length + 1) ('%' :: p) (l ++ s) = true := by
  induction l with
  | nil =>
    intro f p s h
    cases hs : s with
    | nil =>
      rw [hs] at h
      simp [likeAux, h]
    | cons d S =>
      rw [hs] at h
      simp [likeAux, h]
  | cons d l' ih =>
    intro f p s h
    have hIH := ih f p s h
    have hlen : f + (d :: l').length + 1 = (f + l'.length + 1) + 1 := by
      simp only [List.length_cons]
      omega
    rw [hlen, List.cons_append]
    simp [likeAux, hIH]

/-- A substring of the row is always found by the `LIKE` pattern
`'%' + query + '%'` (wildcards in the query only widen the match, and the
fuel budget of `likeMatch` is exactly the worst-case step count). -/
theorem strContains_likeMatch {s q : String} (h : strContains s q) :
    likeMatch ("%" ++ q ++ "%") s = true := by
  obtain ⟨l, r, hl⟩ := h
  unfold likeMatch
  have hpat : ("%" ++ q ++ "%").data = '%' :: (q.data ++ ['%']) := by
    simp [String.data_append]
  have hs : s.data = l ++ (q.data ++ r) := by
    rw [← hl, List.append_assoc]
  rw [hpat, hs]
  have h1 : likeAux (r.length + 2) ['%'] r := likeAux_pct r _ le_rfl
  have h2 := likeAux_prepend q.data (r.length + 2) ['%'] r h1
  have h3 := likeAux_pct_prefix l ((r.length + 2) + 2 * q.data.length)
    (q.data ++ ['%']) (q.data ++ r) h2
  refine likeAux_mono _ _ _ _ ?_ h3
  simp only [List.length_cons, List.length_append, List.length_nil]
  omega

/-- C9 (amended): when the full-text query throws, `searchTasks` returns a
non-error result listing the first `limit` tasks whose title or
description matches the `LIKE` pattern `'%' + query + '%'` — an
ASCII-case-insensitive containment test, which finds every task whose
title or description contains the query as a substring (so the claimed
task is indeed still found), but also tasks matching only up to ASCII
case. -/
theorem C9_fts_fallback :
    (∀ (db : DB) (query : String) (limit : Nat),
      (searchTasks db none query limit).isError = false) ∧
    (∀ (db : DB) (query : String) (limit : Nat),
      (db.tasks.filter (rowLike query)).take limit ≠ [] →
      (searchTasks db none query limit).text =
        joinSep "\n" (((db.tasks.filter (rowLike query)).take limit).map searchLine)) ∧
    (∀ (t : TaskRec) (query : String),
      strContains t.title query ∨ strContains t.description query →
      rowLike query t = true) := by
  refine ⟨?_, ?_, ?_⟩
  · intro db query limit
    unfold searchTasks
    dsimp only
    split <;> rfl
  · intro db query limit hne
    unfold searchTasks
    dsimp only
    rw [if_neg (by simpa [List.length_eq_zero] using hne)]
    rfl
  · intro t query h
    unfold rowLike
    rcases h with h | h
    · simp [strContains_likeMatch h]
    · simp [strContains_likeMatch h]

def c9task : TaskRec :=
  ⟨"t1", "proj", "ABC", "", "backlog", none, 5, "a", 0, 0, none, none, none, none, 0,
   none, none, StoredJson.absent, none⟩

def c9db : DB := ⟨[c9task], [], [], []⟩

/-- C9 counterexample: SQLite's `LIKE` compares ASCII characters
case-insensitively, so the fallback is not plain substring containment:
the query `abc` returns the task titled `ABC` although `abc` is a
substring of neither its title nor its description. -/
theorem C9_counterexample :
    ¬ strContains c9task.title "abc" ∧ ¬ strContains c9task.description "abc" ∧
    rowLike "abc" c9task = true ∧
    (searchTasks c9db none "abc" 20).isError = false ∧
    (searchTasks c9db none "abc" 20).text = joinSep "\n" [searchLine c9task] :=
  ⟨by decide, by decide, by decide, by decide, by decide⟩

/-- Witness for C9 (amended) at a concrete store: the fallback search for
the substring `BC` is a non-error result listing the matching task. -/
theorem C9_fts_fallback_witness :
    (searchTasks c9db none "BC" 20).isError = false ∧
    (searchTasks c9db none "BC" 20).text =
      joinSep "\n" (((c9db.tasks.filter (rowLike "BC")).take 20).map searchLine) ∧
    rowLike "BC" c9task = true :=
  ⟨C9_fts_fallback.1 c9db "BC" 20,
   C9_fts_fallback.2.1 c9db "BC" 20 (by decide),
   C9_fts_fallback.2.2 c9task "BC" (Or.inl (by decide))⟩

-- ── getTask: monolithic (handlers.js 292-406) vs refactored
--    (handlers/tasks.js 132-251) ─────────────────────────────────────

